import Mathlib

/-!
# Concurrent web crawler (`concurrent-web-crawler/main.go`)

A shallow embedding of the crawler and the properties of its specification.

Conventions.

* A Go `string` is a byte sequence.  It is represented by a `String` whose
  characters stand for the bytes (code point = byte value); ASCII text reads as
  itself.  The functions below work on the underlying `List Char`.
* A Go `error` is represented by its message inside `Except String`; the text
  of a message is not the subject of any property below.
* The package `net/url` of the Go standard library is outside the repository.
  The functions of it that `normaliseAndFilterUrl` calls (`Parse`, `IsAbs`,
  `ResolveReference`, `String`) are transcribed in the namespace `url`.
* `http.Get`, `io.ReadAll` and `html.Parse` talk to the outside world; they are
  the fields of `World`, a parameter of everything that fetches.
* `time.Ticker` of the Go standard library is a state machine over discrete time
  (`Ticker`): a periodic source of ticks whose channel holds one tick at most.
* Depths and `maxDepth` are natural numbers: `crawl` starts at depth 0 and only
  ever adds 1.
-/

namespace Crawler

/-! ## Package `net/url` -/

namespace url

/-- The escaping modes of `net/url` (type `encoding`). -/
inductive encoding where
  | encodePath
  | encodePathSegment
  | encodeHost
  | encodeZone
  | encodeUserPassword
  | encodeQueryComponent
  | encodeFragment
deriving DecidableEq

open encoding

/-- Type `Userinfo` of `net/url`. -/
structure Userinfo where
  username : String
  password : String
  passwordSet : Bool
deriving DecidableEq

end url

/-- Type `URL` of `net/url`; a nil `*Userinfo` is `none`. -/
structure URL where
  Scheme : String
  Opaque : String
  User : Option url.Userinfo
  Host : String
  Path : String
  RawPath : String
  OmitHost : Bool
  ForceQuery : Bool
  RawQuery : String
  Fragment : String
  RawFragment : String
deriving DecidableEq

namespace url

open encoding

/-- The zero value of `URL` (`new(URL)`). -/
def emptyURL : URL :=
  { Scheme := "", Opaque := "", User := none, Host := "", Path := "", RawPath := "",
    OmitHost := false, ForceQuery := false, RawQuery := "", Fragment := "",
    RawFragment := "" }

/-- Function `strings.Cut` for a one-byte separator: the text before the first
separator, the text after it, and whether the separator was found. -/
def cut (sep : Char) : List Char → List Char × List Char × Bool
  | [] => ([], [], false)
  | c :: cs =>
    if c = sep then ([], cs, true)
    else
      let r := cut sep cs
      (c :: r.1, r.2.1, r.2.2)

/-- Function `strings.LastIndex` for a one-byte separator, as the pair
`(s[:i], s[i+1:])`; `none` when the index is `-1`. -/
def cutLast (sep : Char) : List Char → Option (List Char × List Char)
  | [] => none
  | c :: cs =>
    match cutLast sep cs with
    | some (a, b) => some (c :: a, b)
    | none => if c = sep then some ([], cs) else none

/-- Function `strings.Index`: the first position at which `pat` occurs. -/
def indexOfSub (pat : List Char) : List Char → Option Nat
  | [] => if pat = [] then some 0 else none
  | c :: cs =>
    if pat.isPrefixOf (c :: cs) then some 0
    else (indexOfSub pat cs).map (fun i => i + 1)

/-- Function `stringContainsCTLByte`. -/
def stringContainsCTLByte (s : List Char) : Bool :=
  s.any (fun b => decide (b.toNat < 32) || decide (b.toNat = 127))

def isLower (c : Char) : Bool := decide (97 ≤ c.toNat) && decide (c.toNat ≤ 122)

def isUpper (c : Char) : Bool := decide (65 ≤ c.toNat) && decide (c.toNat ≤ 90)

def isDigit (c : Char) : Bool := decide (48 ≤ c.toNat) && decide (c.toNat ≤ 57)

/-- Function `ishex`. -/
def ishex (c : Char) : Bool :=
  isDigit c || (decide (97 ≤ c.toNat) && decide (c.toNat ≤ 102))
    || (decide (65 ≤ c.toNat) && decide (c.toNat ≤ 70))

/-- Function `unhex`. -/
def unhex (c : Char) : Nat :=
  if isDigit c then c.toNat - 48
  else if decide (97 ≤ c.toNat) && decide (c.toNat ≤ 102) then c.toNat - 97 + 10
  else if decide (65 ≤ c.toNat) && decide (c.toNat ≤ 70) then c.toNat - 65 + 10
  else 0

/-- The digit of `upperhex` ("0123456789ABCDEF") at index `n % 16`. -/
def upperhex (n : Nat) : Char :=
  if n % 16 < 10 then Char.ofNat (48 + n % 16) else Char.ofNat (65 + (n % 16 - 10))

/-- Function `shouldEscape`: whether byte `c` is written as `%XX` in mode `mode`. -/
def shouldEscape (c : Char) (mode : encoding) : Bool :=
  if isLower c || isUpper c || isDigit c then false
  else if (mode = encodeHost || mode = encodeZone) &&
      ['!', '$', '&', Char.ofNat 39, '(', ')', '*', '+', ',', ';', '=', ':', '[', ']',
        '<', '>', Char.ofNat 34].contains c then false
  else if ['-', '_', '.', '~'].contains c then false
  else if ['$', '&', '+', ',', '/', ':', ';', '=', '?', '@'].contains c then
    match mode with
    | encodePath => c = '?'
    | encodePathSegment => c = '/' || c = ';' || c = ',' || c = '?'
    | encodeUserPassword => c = '@' || c = '/' || c = '?' || c = ':'
    | encodeQueryComponent => true
    | encodeFragment => false
    | _ => true
  else if mode = encodeFragment && ['!', '(', ')', '*'].contains c then false
  else true

/-- Function `unescape`: undo `%XX` (and `+` in a query component); an error when
an escape is malformed or not allowed in `mode`. -/
def unescape (mode : encoding) : List Char → Except String (List Char)
  | [] => .ok []
  | c :: s =>
    if c = '%' then
      match s with
      | a :: b :: rest =>
        if !ishex a || !ishex b then .error "invalid URL escape"
        else if mode = encodeHost && decide (unhex a < 8) && !(a = '2' && b = '5') then
          .error "invalid URL escape"
        else if mode = encodeZone && !(a = '2' && b = '5')
            && Char.ofNat (unhex a * 16 + unhex b) != ' '
            && shouldEscape (Char.ofNat (unhex a * 16 + unhex b)) encodeHost then
          .error "invalid URL escape"
        else
          match unescape mode rest with
          | .error e => .error e
          | .ok t => .ok (Char.ofNat (unhex a * 16 + unhex b) :: t)
      | _ => .error "invalid URL escape"
    else if (mode = encodeHost || mode = encodeZone) && decide (c.toNat < 128)
        && shouldEscape c encodeHost then
      .error "invalid character in host name"
    else
      match unescape mode s with
      | .error e => .error e
      | .ok t => .ok ((if c = '+' ∧ mode = encodeQueryComponent then ' ' else c) :: t)

/-- Function `escape`. -/
def escape (s : List Char) (mode : encoding) : List Char :=
  s.flatMap (fun c =>
    if shouldEscape c mode then
      if c = ' ' ∧ mode = encodeQueryComponent then ['+']
      else ['%', upperhex (c.toNat / 16), upperhex c.toNat]
    else [c])

/-- Function `validEncoded`. -/
def validEncoded (s : List Char) (mode : encoding) : Bool :=
  s.all (fun c =>
    ['!', '$', '&', Char.ofNat 39, '(', ')', '*', '+', ',', ';', '=', ':', '@', '[', ']',
      '%'].contains c || !shouldEscape c mode)

/-- Function `getScheme`; `go i rest` is the loop at index `i` with
`rest = rawURL[i:]`. -/
def getScheme (rawURL : List Char) : Except String (List Char × List Char) :=
  go 0 rawURL
where
  go : Nat → List Char → Except String (List Char × List Char)
    | _, [] => .ok ([], rawURL)
    | i, c :: cs =>
      if isLower c || isUpper c then go (i + 1) cs
      else if isDigit c || c = '+' || c = '-' || c = '.' then
        if i = 0 then .ok ([], rawURL) else go (i + 1) cs
      else if c = ':' then
        if i = 0 then .error "missing protocol scheme" else .ok (rawURL.take i, cs)
      else .ok ([], rawURL)

/-- Function `validOptionalPort`. -/
def validOptionalPort (port : List Char) : Bool :=
  match port with
  | [] => true
  | c :: ds => c = ':' && ds.all isDigit

/-- Function `validUserinfo`. -/
def validUserinfo (s : List Char) : Bool :=
  s.all (fun r => isUpper r || isLower r || isDigit r ||
    ['-', '.', '_', ':', '~', '!', '$', '&', Char.ofNat 39, '(', ')', '*', '+', ',', ';',
      '=', '%', '@'].contains r)

/-- A group of an IPv6 address: one to four hexadecimal digits. -/
def isHexGroup (g : List Char) : Bool :=
  decide (1 ≤ g.length) && decide (g.length ≤ 4) && g.all ishex

/-- A field of a dotted IPv4 address: one to three decimal digits without a
leading zero, of value at most 255. -/
def isDecOctet (g : List Char) : Bool :=
  decide (1 ≤ g.length) && decide (g.length ≤ 3) && g.all isDigit
    && (decide (g.length = 1) || g.head? != some '0')
    && decide (g.foldl (fun n c => 10 * n + (c.toNat - 48)) 0 ≤ 255)

/-- The fields of a text between the separators `sep`. -/
def splitAt (sep : Char) : List Char → List (List Char)
  | [] => [[]]
  | c :: cs =>
    if c = sep then [] :: splitAt sep cs
    else
      match splitAt sep cs with
      | h :: t => (c :: h) :: t
      | [] => [[c]]

/-- The groups of an IPv6 address are well formed: all are hexadecimal groups, but
the last one may be a dotted IPv4 address, which counts for two; the result is the
number of groups, `none` when one is malformed. -/
def countGroups : List (List Char) → Option Nat
  | [] => some 0
  | [g] =>
    if isHexGroup g then some 1
    else if decide ((splitAt '.' g).length = 4) && (splitAt '.' g).all isDecOctet then some 2
    else none
  | g :: rest =>
    if isHexGroup g then (countGroups rest).map (fun n => n + 1) else none

/-- The text is an IPv6 address as `netip.ParseAddr` reads one, without a zone:
eight groups, or fewer with one `::` that stands for the missing ones. -/
def isIPv6 (s : List Char) : Bool :=
  match indexOfSub [':', ':'] s with
  | none => countGroups (splitAt ':' s) = some 8
  | some i =>
    let left := s.take i
    let right := s.drop (i + 2)
    match countGroups (if left = [] then [] else splitAt ':' left),
      countGroups (if right = [] then [] else splitAt ':' right) with
    | some m, some n =>
      decide (m + n ≤ 7) && (left = [] || isHexGroup ((splitAt ':' left).getLast?.getD []))
    | _, _ => false

/-- The text between the brackets of a host is an IPv6 address, with or without a
zone after `%`. -/
def isIPv6Literal (s : List Char) : Bool :=
  isIPv6 (cut '%' s).1 && (!(cut '%' s).2.2 || (cut '%' s).2.1 != [])

/-- Function `parseHost`: a host in brackets, which has to be an IPv6 address and
can be followed by a port, or a host name with at most one colon, followed by
the port. -/
def parseHost (host : List Char) : Except String (List Char) :=
  if host.contains '[' then
    if host.head? ≠ some '[' ∨ (host.drop 1).contains '[' then .error "invalid host"
    else
      match cutLast ']' host with
      | none => .error "missing ']' in host"
      | some (before, colonPort) =>
        if !validOptionalPort colonPort then .error "invalid port after host"
        else
          match indexOfSub ['%', '2', '5'] before with
          | some zone =>
            match unescape encodeHost (host.take zone) with
            | .error e => .error e
            | .ok host1 =>
              match unescape encodeZone ((host.take before.length).drop zone) with
              | .error e => .error e
              | .ok host2 =>
                match unescape encodeHost (host.drop before.length) with
                | .error e => .error e
                | .ok host3 =>
                  if isIPv6Literal ((host1 ++ host2).drop 1) then .ok (host1 ++ host2 ++ host3)
                  else .error "invalid host"
          | none =>
            match unescape encodeHost host with
            | .error e => .error e
            | .ok h =>
              if isIPv6Literal ((h.take before.length).drop 1) then .ok h
              else .error "invalid host"
  else
    match cutLast ':' host with
    | some (before, _) =>
      if before.contains ':' then .error "invalid host"
      else if !validOptionalPort (host.drop before.length) then
        .error "invalid port after host"
      else unescape encodeHost host
    | none => unescape encodeHost host

/-- Function `parseAuthority`. -/
def parseAuthority (authority : List Char) : Except String (Option Userinfo × List Char) :=
  match cutLast '@' authority with
  | none =>
    match parseHost authority with
    | .error e => .error e
    | .ok host => .ok (none, host)
  | some (userinfo, hostpart) =>
    match parseHost hostpart with
    | .error e => .error e
    | .ok host =>
      if !validUserinfo userinfo then .error "net/url: invalid userinfo"
      else if !userinfo.contains ':' then
        match unescape encodeUserPassword userinfo with
        | .error e => .error e
        | .ok u => .ok (some ⟨String.mk u, "", false⟩, host)
      else
        match unescape encodeUserPassword (cut ':' userinfo).1 with
        | .error e => .error e
        | .ok username =>
          match unescape encodeUserPassword (cut ':' userinfo).2.1 with
          | .error e => .error e
          | .ok password => .ok (some ⟨String.mk username, String.mk password, true⟩, host)

/-- Method `(*URL).setPath`. -/
def setPath (u : URL) (p : List Char) : Except String URL :=
  match unescape encodePath p with
  | .error e => .error e
  | .ok path =>
    .ok { u with
      Path := String.mk path
      RawPath := if p = escape path encodePath then "" else String.mk p }

/-- Method `(*URL).setFragment`. -/
def setFragment (u : URL) (f : List Char) : Except String URL :=
  match unescape encodeFragment f with
  | .error e => .error e
  | .ok frag =>
    .ok { u with
      Fragment := String.mk frag
      RawFragment := if f = escape frag encodeFragment then "" else String.mk f }

/-- Function `parse` with `viaRequest = false`. -/
def parse (rawURL : List Char) : Except String URL :=
  if stringContainsCTLByte rawURL then .error "net/url: invalid control character in URL"
  else if rawURL = ['*'] then .ok { emptyURL with Path := "*" }
  else
    match getScheme rawURL with
    | .error e => .error e
    | .ok (scheme, rest0) =>
      let url0 : URL := { emptyURL with Scheme := String.mk (scheme.map Char.toLower) }
      let forceQuery : Bool := rest0.getLast? = some '?' && rest0.count '?' = 1
      let rest : List Char := if forceQuery then rest0.dropLast else (cut '?' rest0).1
      let url1 : URL :=
        if forceQuery then { url0 with ForceQuery := true }
        else { url0 with RawQuery := String.mk (cut '?' rest0).2.1 }
      if rest.head? ≠ some '/' ∧ url1.Scheme ≠ "" then
        .ok { url1 with Opaque := String.mk rest }
      else if rest.head? ≠ some '/' ∧ (cut '/' rest).1.contains ':' then
        .error "first path segment in URL cannot contain colon"
      else if (url1.Scheme ≠ "" ∨ ¬ ['/', '/', '/'].isPrefixOf rest)
          ∧ ['/', '/'].isPrefixOf rest then
        let authority := (cut '/' (rest.drop 2)).1
        let rest2 := (rest.drop 2).drop authority.length
        match parseAuthority authority with
        | .error e => .error e
        | .ok (user, host) => setPath { url1 with User := user, Host := String.mk host } rest2
      else if url1.Scheme ≠ "" ∧ rest.head? = some '/' then
        setPath { url1 with OmitHost := true } rest
      else setPath url1 rest

/-- Function `url.Parse`. -/
def Parse (rawURL : String) : Except String URL :=
  match parse (cut '#' rawURL.data).1 with
  | .error e => .error e
  | .ok u =>
    if (cut '#' rawURL.data).2.1 = [] then .ok u
    else setFragment u (cut '#' rawURL.data).2.1

/-- Method `(*URL).IsAbs`. -/
def IsAbs (u : URL) : Bool := u.Scheme != ""

/-- The test `p, err := unescape(raw, mode); err == nil && p == s` of `EscapedPath`
and `EscapedFragment`. -/
def unescapesTo (mode : encoding) (raw s : List Char) : Bool :=
  match unescape mode raw with
  | .ok p => p = s
  | .error _ => false

/-- Method `(*URL).EscapedPath`. -/
def EscapedPath (u : URL) : List Char :=
  if u.RawPath ≠ "" ∧ validEncoded u.RawPath.data encodePath
      ∧ unescapesTo encodePath u.RawPath.data u.Path.data then u.RawPath.data
  else if u.Path = "*" then ['*']
  else escape u.Path.data encodePath

/-- Method `(*URL).EscapedFragment`. -/
def EscapedFragment (u : URL) : List Char :=
  if u.RawFragment ≠ "" ∧ validEncoded u.RawFragment.data encodeFragment
      ∧ unescapesTo encodeFragment u.RawFragment.data u.Fragment.data then
    u.RawFragment.data
  else escape u.Fragment.data encodeFragment

/-- Method `(*Userinfo).String` for a non-nil receiver. -/
def userinfoString (ui : Userinfo) : List Char :=
  escape ui.username.data encodeUserPassword ++
    (if ui.passwordSet then ':' :: escape ui.password.data encodeUserPassword else [])

/-- Method `(*URL).String` (the name `String` is taken by the type): each `buf`
below is the content of the builder `buf` of the Go code at that point. -/
def toGoString (u : URL) : String :=
  let buf0 : List Char := if u.Scheme ≠ "" then u.Scheme.data ++ [':'] else []
  let buf1 : List Char :=
    if u.Opaque ≠ "" then buf0 ++ u.Opaque.data
    else
      let auth : List Char :=
        if u.Scheme ≠ "" ∨ u.Host ≠ "" ∨ u.User ≠ none then
          if u.OmitHost = true ∧ u.Host = "" ∧ u.User = none then []
          else
            (if u.Host ≠ "" ∨ u.Path ≠ "" ∨ u.User ≠ none then ['/', '/'] else [])
              ++ (match u.User with
                  | some ui => userinfoString ui ++ ['@']
                  | none => [])
              ++ (if u.Host ≠ "" then escape u.Host.data encodeHost else [])
        else []
      let path := EscapedPath u
      let slash : List Char :=
        if path ≠ [] ∧ path.head? ≠ some '/' ∧ u.Host ≠ "" then ['/'] else []
      let buf := buf0 ++ auth ++ slash
      let dot : List Char :=
        if buf = [] ∧ (cut '/' path).1.contains ':' then ['.', '/'] else []
      buf ++ dot ++ path
  let buf2 : List Char :=
    if u.ForceQuery = true ∨ u.RawQuery ≠ "" then buf1 ++ '?' :: u.RawQuery.data else buf1
  let buf3 : List Char :=
    if u.Fragment ≠ "" then buf2 ++ '#' :: EscapedFragment u else buf2
  String.mk buf3

/-- Function `strings.Split(s, "/")`: the elements that the `strings.Cut` loop of
`resolvePath` sees, in order. -/
def splitSlash : List Char → List (List Char)
  | [] => [[]]
  | c :: cs =>
    if c = '/' then [] :: splitSlash cs
    else
      match splitSlash cs with
      | h :: t => (c :: h) :: t
      | [] => [[c]]

/-- One turn of the loop of `resolvePath`: the state is the builder `dst` and
the flag `first`.  An element `..` removes the last element written; when that
cuts the path back to `/`, the flag `first` is set again, so that the next element
follows the `/` directly. -/
def resolveElem (st : List Char × Bool) (elem : List Char) : List Char × Bool :=
  if elem = ['.'] then (st.1, false)
  else if elem = ['.', '.'] then
    match cutLast '/' (st.1.drop 1) with
    | none => (['/'], true)
    | some (before, _) => ('/' :: before, st.2 || before.isEmpty)
  else ((if st.2 then st.1 else st.1 ++ ['/']) ++ elem, false)

/-- Function `resolvePath`. -/
def resolvePath (base ref : List Char) : List Char :=
  let full : List Char :=
    if ref = [] then base
    else if ref.head? ≠ some '/' then
      (match cutLast '/' base with
        | some (before, _) => before ++ ['/']
        | none => []) ++ ref
    else ref
  if full = [] then []
  else
    let elems := splitSlash full
    let dst := (elems.foldl resolveElem (['/'], true)).1
    let last := elems.getLast?.getD []
    let r := if last = ['.'] ∨ last = ['.', '.'] then dst ++ ['/'] else dst
    if (r.drop 1).head? = some '/' then r.drop 1 else r

/-- The call `url.setPath(p)` of `ResolveReference`, whose error is ignored: on
an error the receiver is left as it was. -/
def setPathIgnoringError (u : URL) (p : List Char) : URL :=
  match setPath u p with
  | .ok v => v
  | .error _ => u

/-- Method `(*URL).ResolveReference`. -/
def ResolveReference (u ref : URL) : URL :=
  let url : URL := if ref.Scheme = "" then { ref with Scheme := u.Scheme } else ref
  if ref.Scheme ≠ "" ∨ ref.Host ≠ "" ∨ ref.User ≠ none then
    setPathIgnoringError url (resolvePath (EscapedPath ref) [])
  else if ref.Opaque ≠ "" then
    { url with User := none, Host := "", Path := "" }
  else
    let url1 : URL :=
      if ref.Path = "" ∧ ref.ForceQuery = false ∧ ref.RawQuery = "" then
        if ref.Fragment = "" then
          { url with RawQuery := u.RawQuery, Fragment := u.Fragment,
                     RawFragment := u.RawFragment }
        else { url with RawQuery := u.RawQuery }
      else url
    if ref.Path = "" ∧ u.Opaque ≠ "" then
      { url1 with Opaque := u.Opaque, User := none, Host := "", Path := "" }
    else
      setPathIgnoringError { url1 with Host := u.Host, User := u.User }
        (resolvePath (EscapedPath u) (EscapedPath ref))

end url

/-! ## The crawler: `normaliseAndFilterUrl` -/

/-- Function `normaliseAndFilterUrl`; the global `baseDomain` is a parameter. -/
def normaliseAndFilterUrl (baseDomain : URL) (link : String) : Except String String :=
  match url.Parse link with
  | .error err => .error err
  | .ok parsedURL =>
    let parsedURL : URL :=
      if !url.IsAbs parsedURL then url.ResolveReference baseDomain parsedURL else parsedURL
    if parsedURL.Host ≠ baseDomain.Host then .error "external domain"
    else url.toGoString { parsedURL with Fragment := "" } |> .ok

/-! ## Package `golang.org/x/net/html`: the parsed document -/

namespace html

/-- Type `NodeType`. -/
inductive NodeType where
  | ErrorNode
  | TextNode
  | DocumentNode
  | ElementNode
  | CommentNode
  | DoctypeNode
  | RawNode
deriving DecidableEq

/-- Type `Attribute`. -/
structure Attribute where
  Namespace : String
  Key : String
  Val : String
deriving DecidableEq

/-- Type `Node`: the chain `FirstChild`, `NextSibling`, ... of a node is the list
`children`; the field `Type` is written `Type_`. -/
inductive Node where
  | mk (Type_ : NodeType) (Data : String) (Attr : List Attribute) (children : List Node)

end html

/-! ## The crawler: `extractLinks` -/

/-- The loop `for _, attr := range n.Attr` of `findLinks`, appending to `links`. -/
def appendHrefs (links : List String) (attrs : List html.Attribute) : List String :=
  attrs.foldl (fun links attr => if attr.Key = "href" then links ++ [attr.Val] else links) links

mutual
/-- The closure `findLinks` of `extractLinks`; the captured slice `links` is passed
in and returned. -/
def findLinks : html.Node → List String → List String
  | .mk ty data attr children, links =>
    findLinksFrom children
      (if ty = html.NodeType.ElementNode ∧ data = "a" then appendHrefs links attr else links)
/-- The loop `for child := n.FirstChild; child != nil; child = child.NextSibling`
of `findLinks`. -/
def findLinksFrom : List html.Node → List String → List String
  | [], links => links
  | child :: siblings, links => findLinksFrom siblings (findLinks child links)
end

mutual
/-- The nodes on which `findLinks` is called, in the order of the calls, when it
runs on `n`. -/
def findLinksCalls : html.Node → List html.Node
  | .mk ty data attr children => .mk ty data attr children :: findLinksCallsFrom children
/-- The calls of `findLinks` made by the loop over the children. -/
def findLinksCallsFrom : List html.Node → List html.Node
  | [] => []
  | child :: siblings => findLinksCalls child ++ findLinksCallsFrom siblings
end

/-- What `http.Get` returns without an error: the status code of the response and
what `io.ReadAll(resp.Body)` gives. -/
structure Response where
  StatusCode : Nat
  Body : Except String String

/-- The outside world: `http.Get` and `html.Parse`. -/
structure World where
  httpGet : String → Except String Response
  htmlParse : String → Except String html.Node

/-- Function `extractLinks`. -/
def extractLinks (w : World) (htmlContent : String) : Except String (List String) :=
  match w.htmlParse htmlContent with
  | .error err => .error err
  | .ok doc => .ok (findLinks doc [])

/-- Function `fetchURL`, without the receive `<-rateLimiter.C` that precedes the
request (see `Ticker`). -/
def fetchURL (w : World) (url : String) : Except String String :=
  match w.httpGet url with
  | .error err => .error err
  | .ok resp =>
    match resp.Body with
    | .error err => .error err
    | .ok body => .ok body

/-! ## The document tree as the specification describes it -/

mutual
/-- The nodes of a tree in depth-first pre-order (document order). -/
def preorder : html.Node → List html.Node
  | .mk ty data attr children => .mk ty data attr children :: preorderAll children
/-- The nodes of a list of trees, tree after tree. -/
def preorderAll : List html.Node → List html.Node
  | [] => []
  | n :: rest => preorder n ++ preorderAll rest
end

mutual
/-- The number of nodes of a tree. -/
def nodeCount : html.Node → Nat
  | .mk _ _ _ children => 1 + nodeCountAll children
/-- The number of nodes of a list of trees. -/
def nodeCountAll : List html.Node → Nat
  | [] => 0
  | n :: rest => nodeCount n + nodeCountAll rest
end

/-- The values of the "href" attributes of a node when it is an anchor element,
nothing otherwise. -/
def anchorHrefs : html.Node → List String
  | .mk ty data attr _ =>
    if ty = html.NodeType.ElementNode ∧ data = "a" then
      (attr.filter (fun a => a.Key = "href")).map (fun a => a.Val)
    else []

/-- The specification of link extraction: the "href" values of the anchor
elements, in document order. -/
def hrefsInDocumentOrder (doc : html.Node) : List String :=
  (preorder doc).flatMap anchorHrefs

/-! ## The crawler: `crawl` and `main` as a transition system

Every call `go crawl(url, depth, ...)` is a goroutine.  A goroutine is observed
at three points of the body of `crawl`; one step of the system lets one goroutine
run from its point to the next one.  The section between `mu.Lock()` and
`mu.Unlock()` lies inside one step: the mutex makes it atomic.  The receive
`<-rateLimiter.C` at the head of `fetchURL` delays a step and does not change its
result; the ticker itself is the subject of `Ticker` below. -/

/-- The globals `maxDepth` and `baseDomain`. -/
structure Globals where
  maxDepth : Nat
  baseDomain : URL

/-- A goroutine running `crawl(url, depth, ...)`, at one of three points. -/
inductive Goroutine where
  /-- Started by `go crawl(url, depth, ...)`; the body has not begun. -/
  | started (url : String) (depth : Nat)
  /-- Past the depth check and the locked section, before `fetchURL(url, ...)`. -/
  | fetching (url : String) (depth : Nat)
  /-- In the loop `for _, link := range links`, with `links` left to handle. -/
  | spawning (url : String) (depth : Nat) (links : List String)
deriving DecidableEq

/-- The shared state, and three logs kept for the statements of the properties. -/
structure State where
  /-- The keys of the map `visited`; every value stored is `true`. -/
  visited : List String
  /-- The counter of the `sync.WaitGroup`. -/
  wg : Int
  /-- The goroutines that have not returned. -/
  goroutines : List Goroutine
  /-- Log: `(url, depth)` of every execution of `visited[url] = true`, oldest first. -/
  marked : List (String × Nat)
  /-- Log: `(url, depth)` of every call of `fetchURL`, oldest first. -/
  fetched : List (String × Nat)
  /-- Log: `(url, depth)` of every `go crawl(url, depth, ...)`, oldest first. -/
  created : List (String × Nat)
deriving DecidableEq

/-- The goroutine at index `i` returns: it leaves the system and its deferred
`wg.Done()` runs. -/
def State.finish (s : State) (i : Nat) : State :=
  { s with goroutines := s.goroutines.eraseIdx i, wg := s.wg - 1 }

/-- The goroutine at index `i` moves on to the point `g`. -/
def State.continueAs (s : State) (i : Nat) (g : Goroutine) : State :=
  { s with goroutines := s.goroutines.set i g }

/-- Function `crawl`, one step of it: the goroutine at index `i` runs from the
point where it stands to the next one; the comments give the lines of `main.go`. -/
def crawlStep (gl : Globals) (w : World) (s : State) (i : Nat) : State :=
  match s.goroutines[i]? with
  | none => s
  | some (.started url depth) =>
    -- lines 95-97: `if depth > maxDepth { return }`
    if depth > gl.maxDepth then s.finish i
    -- lines 100-104: `mu.Lock(); if visited[url] { mu.Unlock(); return }`
    else if url ∈ s.visited then s.finish i
    -- lines 105-106: `visited[url] = true; mu.Unlock()`
    else
      { s with
        visited := url :: s.visited
        marked := s.marked ++ [(url, depth)]
        goroutines := s.goroutines.set i (.fetching url depth) }
  | some (.fetching url depth) =>
    -- line 111: `content, err := fetchURL(url, rateLimiter)`
    let s1 : State := { s with fetched := s.fetched ++ [(url, depth)] }
    match fetchURL w url with
    -- lines 112-115: `if err != nil { ...; return }`
    | .error _ => s1.finish i
    | .ok content =>
      -- line 117: `links, err := extractLinks(content)`
      match extractLinks w content with
      -- lines 118-121: `if err != nil { ...; return }`
      | .error _ => s1.finish i
      | .ok links => s1.continueAs i (.spawning url depth links)
  -- line 134: the loop is over, `crawl` returns
  | some (.spawning _ _ []) => s.finish i
  | some (.spawning url depth (link :: links)) =>
    -- line 125: `normalizedLink, err := normaliseAndFilterUrl(link)`
    match normaliseAndFilterUrl gl.baseDomain link with
    -- lines 126-128: `if err != nil { continue }`
    | .error _ => s.continueAs i (.spawning url depth links)
    -- lines 130-131: `wg.Add(1); go crawl(normalizedLink, depth+1, ...)`
    | .ok normalizedLink =>
      { s with
        wg := s.wg + 1
        goroutines :=
          s.goroutines.set i (.spawning url depth links) ++ [.started normalizedLink (depth + 1)]
        created := s.created ++ [(normalizedLink, depth + 1)] }

/-- The goroutine at index `i` takes `k` steps in a row. -/
def crawlSteps (gl : Globals) (w : World) (i : Nat) : Nat → State → State
  | 0, s => s
  | k + 1, s => crawlSteps gl w i k (crawlStep gl w s i)

/-- The links of a page that pass `normaliseAndFilterUrl`, normalised, in the order
of the page. -/
def acceptedLinks (baseDomain : URL) (links : List String) : List String :=
  links.filterMap (fun link =>
    match normaliseAndFilterUrl baseDomain link with
    | .error _ => none
    | .ok normalizedLink => some normalizedLink)

/-- One step of the system: the scheduler's choice `pick` selects the goroutine at
index `pick % n` among the `n` that have not returned. -/
def step (gl : Globals) (w : World) (s : State) (pick : Nat) : State :=
  crawlStep gl w s (pick % s.goroutines.length)

/-- The state after `main` has run `wg.Add(1); go crawl(seedURL, 0, ...)`. -/
def initState (seedURL : String) : State :=
  { visited := [], wg := 1, goroutines := [.started seedURL 0], marked := [], fetched := [],
    created := [(seedURL, 0)] }

/-- The state after `n` steps under the scheduler `sched`, from state `s`. -/
def runFrom (gl : Globals) (w : World) (sched : Nat → Nat) (s : State) : Nat → State
  | 0 => s
  | n + 1 => step gl w (runFrom gl w sched s n) (sched n)

/-- The crawl of `main` for the seed `seedURL`, after `n` steps under `sched`. -/
def run (gl : Globals) (w : World) (seedURL : String) (sched : Nat → Nat) (n : Nat) : State :=
  runFrom gl w sched (initState seedURL) n

/-- The global `maxDepth` as `main.go` sets it. -/
def maxDepth : Nat := 2

/-- The constant `seedURL` of `main`. -/
def seedURL : String := "https://www.google.com/"

/-- Function `main` up to `go crawl(seedURL, 0, ...)`: the globals it sets, or
`none` when the seed does not parse and `main` returns at once. -/
def mainGlobals (maxDepth : Nat) (seedURL : String) : Option Globals :=
  match url.Parse seedURL with
  | .error _ => none
  | .ok u => some { maxDepth := maxDepth, baseDomain := u }

/-! ### A bound on the number of steps -/

/-- The number of steps that the loop over `links` of a goroutine can still cause,
its own and those of the goroutines it starts, when a goroutine started on `u`
causes `below u` steps. -/
def spawnCost (gl : Globals) (below : String → Nat) (links : List String) : Nat :=
  1 + (links.map (fun link =>
    match normaliseAndFilterUrl gl.baseDomain link with
    | .error _ => 1
    | .ok n => 1 + below n)).sum

/-- The number of steps that a goroutine about to call `fetchURL(url, ...)` can
still cause. -/
def fetchCost (gl : Globals) (w : World) (below : String → Nat) (url : String) : Nat :=
  1 + (match fetchURL w url with
    | .error _ => 0
    | .ok content =>
      match extractLinks w content with
      | .error _ => 0
      | .ok links => spawnCost gl below links)

/-- The number of steps that a goroutine started on `url` can cause when `fuel`
levels of depth remain: `fuel = maxDepth + 1 - depth`. -/
def startCost (gl : Globals) (w : World) : Nat → String → Nat
  | 0, _ => 1
  | fuel + 1, url => 1 + fetchCost gl w (startCost gl w fuel) url

/-- The number of steps that a goroutine can still cause. -/
def Goroutine.cost (gl : Globals) (w : World) : Goroutine → Nat
  | .started url depth => startCost gl w (gl.maxDepth + 1 - depth) url
  | .fetching url depth => fetchCost gl w (startCost gl w (gl.maxDepth - depth)) url
  | .spawning _ depth links => spawnCost gl (startCost gl w (gl.maxDepth - depth)) links

/-- The number of steps that a state can still take. -/
def State.cost (gl : Globals) (w : World) (s : State) : Nat :=
  (s.goroutines.map (Goroutine.cost gl w)).sum

/-! ## The rate limiter: `time.NewTicker(rateLimit)` and `<-rateLimiter.C`

Time is counted in nanoseconds from the call of `time.NewTicker`. -/

/-- A `time.Ticker` of period `d`, as the documentation of package `time` describes
it: it fires at the times `d`, `2 * d`, ...; its channel `C` holds at most one
tick, and a tick that fires while `C` is full is dropped ("the ticker will adjust
the time interval or drop ticks to make up for slow receivers"). -/
structure Ticker where
  /-- The period. -/
  d : Nat
  /-- The time up to which the ticker has been followed. -/
  now : Nat
  /-- The time at which the ticker fires next. -/
  next : Nat
  /-- The firing time of the tick that `C` holds, if it holds one. -/
  buffered : Option Nat
deriving DecidableEq

/-- Function `time.NewTicker`. -/
def NewTicker (d : Nat) : Ticker :=
  { d := d, now := 0, next := d, buffered := none }

/-- Let time pass until `time`: of the ticks that fire meanwhile the first one is
put into `C` when `C` is empty, the others are dropped. -/
def Ticker.advance (t : Ticker) (time : Nat) : Ticker :=
  if t.next ≤ max t.now time then
    { t with
      now := max t.now time
      next := t.next + ((max t.now time - t.next) / t.d + 1) * t.d
      buffered := if t.buffered.isSome then t.buffered else some t.next }
  else { t with now := max t.now time }

/-- The receive `<-rateLimiter.C` of a call of `fetchURL` made at time `call`: the
time at which the receive returns (the fetch is issued), the firing time of the
tick it receives, and the ticker afterwards.  A receive that finds `C` empty
blocks until the ticker fires next. -/
def Ticker.recv (t : Ticker) (call : Nat) : (Nat × Nat) × Ticker :=
  let t1 := t.advance call
  match t1.buffered with
  | some tick => ((t1.now, tick), { t1 with buffered := none })
  | none => ((t1.next, t1.next), { t1 with now := t1.next, next := t1.next + t1.d })

/-- The fetches issued for calls of `fetchURL` made at the times `calls`, in the
order in which the receives return: the issue time and the firing time of the
tick received. -/
def issuancesFrom (t : Ticker) : List Nat → List (Nat × Nat)
  | [] => []
  | call :: calls => (t.recv call).1 :: issuancesFrom (t.recv call).2 calls

/-- The fetches issued through a fresh ticker of period `d`. -/
def issuances (d : Nat) (calls : List Nat) : List (Nat × Nat) :=
  issuancesFrom (NewTicker d) calls

/-- Constant `time.Millisecond`, in nanoseconds. -/
def Millisecond : Nat := 1000000

/-- The global `rateLimit` of `main.go`: `time.Millisecond * 200`. -/
def rateLimit : Nat := Millisecond * 200

/-! ## Concrete worlds for the scenarios of the specification -/

/-- An anchor element `<a href=...>` without children. -/
def anchor (href : String) : html.Node :=
  .mk html.NodeType.ElementNode "a" [⟨"", "href", href⟩] []

/-- A document `<html><head></head><body>` followed by one anchor per element of
`hrefs`. -/
def pageWith (hrefs : List String) : html.Node :=
  .mk html.NodeType.DocumentNode "" []
    [.mk html.NodeType.ElementNode "html" []
      [.mk html.NodeType.ElementNode "head" [] [],
       .mk html.NodeType.ElementNode "body" [] (hrefs.map anchor)]]

/-- A world given by a table: per URL the outcome of `http.Get`, per body the
document that `html.Parse` builds.  A URL outside the table has no server, a
body outside the table parses to a page without anchors. -/
def tableWorld (pages : List (String × Except String Response))
    (docs : List (String × List String)) : World :=
  { httpGet := fun u =>
      match pages.lookup u with
      | some r => r
      | none => .error "no such host"
    htmlParse := fun body =>
      match docs.lookup body with
      | some hrefs => .ok (pageWith hrefs)
      | none => .ok (pageWith []) }

/-- The base domain of the seed `https://example.test/`. -/
def exampleBase : URL :=
  { Scheme := "https", Opaque := "", User := none, Host := "example.test", Path := "/",
    RawPath := "", OmitHost := false, ForceQuery := false, RawQuery := "", Fragment := "",
    RawFragment := "" }

/-- The scenario of the specification: the seed page has the anchors `/a`,
`https://example.test/b#frag` and `https://other.test/x`; the pages `/a` and `/b`
have one anchor each. -/
def specWorld : World :=
  tableWorld
    [("https://example.test/", .ok ⟨200, .ok "seed"⟩),
     ("https://example.test/a", .ok ⟨200, .ok "page a"⟩),
     ("https://example.test/b", .ok ⟨200, .ok "page b"⟩),
     ("https://example.test/a/1", .ok ⟨200, .ok "leaf"⟩),
     ("https://example.test/b/1", .ok ⟨200, .ok "leaf"⟩)]
    [("seed", ["/a", "https://example.test/b#frag", "https://other.test/x"]),
     ("page a", ["/a/1"]),
     ("page b", ["/b/1"])]

/-- A seed page that links twice to `/a`. -/
def twiceWorld : World :=
  tableWorld
    [("https://example.test/", .ok ⟨200, .ok "seed"⟩),
     ("https://example.test/a", .ok ⟨200, .ok "page a"⟩)]
    [("seed", ["/a", "/a"]), ("page a", ["/"])]

/-- A seed page with the children `/a`, whose fetch fails, and `/b`. -/
def failingWorld : World :=
  tableWorld
    [("https://example.test/", .ok ⟨200, .ok "seed"⟩),
     ("https://example.test/a", .error "connection refused"),
     ("https://example.test/b", .ok ⟨200, .ok "page b"⟩)]
    [("seed", ["/a", "/b"])]

/-- A server that answers the seed with status 404 and an HTML body that links
to `/x`. -/
def notFoundWorld : World :=
  tableWorld
    [("https://example.test/", .ok ⟨404, .ok "not found"⟩)]
    [("not found", ["/x"])]

/-- The scheduler that always picks the first goroutine. -/
def firstAlways : Nat → Nat := fun _ => 0

/-- A seed page that links to `/a/b`, a page that holds the relative link `c`. -/
def relativeWorld : World :=
  tableWorld
    [("https://example.test/", .ok ⟨200, .ok "seed"⟩),
     ("https://example.test/a/b", .ok ⟨200, .ok "page b"⟩)]
    [("seed", ["/a/b"]), ("page b", ["c"])]

/-- A document with an anchor, an anchor without "href", an "href" on a `link`
element and on a text node, an anchor nested in an anchor, and a last anchor. -/
def mixedDoc : html.Node :=
  .mk html.NodeType.DocumentNode "" []
    [.mk html.NodeType.ElementNode "body" []
      [.mk html.NodeType.ElementNode "a" [⟨"", "class", "x"⟩, ⟨"", "href", "/first"⟩] [],
       .mk html.NodeType.ElementNode "link" [⟨"", "href", "/style.css"⟩] [],
       .mk html.NodeType.ElementNode "a" [⟨"", "name", "top"⟩] [],
       .mk html.NodeType.TextNode "a" [⟨"", "href", "/text"⟩] [],
       .mk html.NodeType.ElementNode "div" []
         [.mk html.NodeType.ElementNode "a" [⟨"", "href", "/second"⟩]
           [.mk html.NodeType.ElementNode "a" [⟨"", "href", "/third"⟩] []]],
       .mk html.NodeType.ElementNode "a" [⟨"", "href", "/fourth"⟩] []]]

/-- A world whose parser returns `mixedDoc` for every body. -/
def mixedWorld : World :=
  { httpGet := fun _ => .ok ⟨200, .ok "mixed"⟩
    htmlParse := fun _ => .ok mixedDoc }

/-! ## Notions used in the statements -/

/-- The URL whose host `normaliseAndFilterUrl` compares with the host of
`baseDomain`: the parsed link, resolved against `baseDomain` when it is not
absolute. -/
def resolveLink (baseDomain parsedURL : URL) : URL :=
  if !url.IsAbs parsedURL then url.ResolveReference baseDomain parsedURL else parsedURL

/-- The URLs of the goroutines that are about to call `fetchURL`. -/
def fetchingUrls (l : List Goroutine) : List String :=
  l.filterMap (fun g =>
    match g with
    | .fetching u _ => some u
    | _ => none)

/-- The depth that a goroutine can have at its point: a started goroutine is at
most one level past `maxDepth`, one past the depth check is within `maxDepth`. -/
def Goroutine.depthOK (gl : Globals) : Goroutine → Prop
  | .started _ depth => depth ≤ gl.maxDepth + 1
  | .fetching _ depth => depth ≤ gl.maxDepth
  | .spawning _ depth _ => depth ≤ gl.maxDepth

/-- The invariant of the transition system. -/
structure Inv (gl : Globals) (s : State) : Prop where
  wg_eq : s.wg = s.goroutines.length
  nodup : (fetchingUrls s.goroutines ++ s.fetched.map Prod.fst).Nodup
  sub_visited : ∀ u ∈ fetchingUrls s.goroutines ++ s.fetched.map Prod.fst, u ∈ s.visited
  visited_marked : ∀ u, u ∈ s.visited ↔ u ∈ s.marked.map Prod.fst
  marked_depth : ∀ p ∈ s.marked, p.2 ≤ gl.maxDepth
  fetched_depth : ∀ p ∈ s.fetched, p.2 ≤ gl.maxDepth
  created_depth : ∀ p ∈ s.created, p.2 ≤ gl.maxDepth + 1
  depth_ok : ∀ g ∈ s.goroutines, g.depthOK gl

/-- Two URLs that agree in every component but the fragment (`Fragment`,
`RawFragment`). -/
def sameButFragment (u v : URL) : Prop :=
  u.Scheme = v.Scheme ∧ u.Opaque = v.Opaque ∧ u.User = v.User ∧ u.Host = v.Host
    ∧ u.Path = v.Path ∧ u.RawPath = v.RawPath ∧ u.OmitHost = v.OmitHost
    ∧ u.ForceQuery = v.ForceQuery ∧ u.RawQuery = v.RawQuery

/-- Every `%` of the text is followed by two hexadecimal digits. -/
def escapesWellFormed : List Char → Bool
  | [] => true
  | c :: s =>
    if c = '%' then
      match s with
      | a :: b :: rest => url.ishex a && url.ishex b && escapesWellFormed rest
      | _ => false
    else escapesWellFormed s

/-- No `#` stands in the components that `String` writes as they are. -/
def noHash (u : URL) : Prop :=
  '#' ∉ u.Scheme.data ∧ '#' ∉ u.Opaque.data ∧ '#' ∉ u.RawQuery.data

/-- The ticker right after the issuance `a` (issue time, firing time of the tick
received): `C` is empty, the time is not before the issuance, and the next tick
fires at least one period after the tick received. -/
def Ticker.after (t : Ticker) (a : Nat × Nat) : Prop :=
  0 < t.d ∧ t.now < t.next ∧ t.buffered = none ∧ a.2 + t.d ≤ t.next ∧ a.1 ≤ t.now

/-- What holds between two consecutive issuances `a` and `b` (issue time, firing
time of the tick received): the tick of `b` fires at least `d` after the tick of
`a`, and after `a` was issued; `b` is issued no earlier than its tick fires; and
when `a` received its tick at the time it fired, `b` is issued at least `d` after
`a`. -/
def paced (d : Nat) (a b : Nat × Nat) : Prop :=
  a.2 + d ≤ b.2 ∧ a.1 < b.2 ∧ b.2 ≤ b.1 ∧ (a.1 = a.2 → a.1 + d ≤ b.1)

/-- The goroutine `g`, stepping in a state whose keys of `visited` lie in `V`, stays
within the goroutines `A` and keeps the keys of `visited` in `V`. -/
def Goroutine.staysIn (gl : Globals) (w : World) (A : List Goroutine) (V : List String) :
    Goroutine → Bool
  | .started u d => decide (d > gl.maxDepth) || (decide (u ∈ V) && decide (.fetching u d ∈ A))
  | .fetching u d =>
    match fetchURL w u with
    | .error _ => true
    | .ok content =>
      match extractLinks w content with
      | .error _ => true
      | .ok links => decide (.spawning u d links ∈ A)
  | .spawning _ _ [] => true
  | .spawning u d (link :: links) =>
    decide (.spawning u d links ∈ A) &&
      (match normaliseAndFilterUrl gl.baseDomain link with
        | .error _ => true
        | .ok n => decide (.started n (d + 1) ∈ A))

/-- The set `A` of goroutines and the set `V` of URLs are closed under the steps of
`crawl`. -/
def closedUnder (gl : Globals) (w : World) (A : List Goroutine) (V : List String) : Bool :=
  A.all (Goroutine.staysIn gl w A V)

/-- The goroutines that can occur in the scenario of the specification with
`maxDepth = 1`. -/
def specGoroutines : List Goroutine :=
  [.started "https://example.test/" 0, .fetching "https://example.test/" 0,
   .spawning "https://example.test/" 0
     ["/a", "https://example.test/b#frag", "https://other.test/x"],
   .spawning "https://example.test/" 0 ["https://example.test/b#frag", "https://other.test/x"],
   .spawning "https://example.test/" 0 ["https://other.test/x"],
   .spawning "https://example.test/" 0 [],
   .started "https://example.test/a" 1, .fetching "https://example.test/a" 1,
   .spawning "https://example.test/a" 1 ["/a/1"], .spawning "https://example.test/a" 1 [],
   .started "https://example.test/b" 1, .fetching "https://example.test/b" 1,
   .spawning "https://example.test/b" 1 ["/b/1"], .spawning "https://example.test/b" 1 [],
   .started "https://example.test/a/1" 2, .started "https://example.test/b/1" 2]

/-- The visited set that the specification expects in its scenario. -/
def specVisited : List String :=
  ["https://example.test/", "https://example.test/a", "https://example.test/b"]

/-! # Theorems -/

/-! ## Link extraction -/

theorem appendHrefs_eq (attrs : List html.Attribute) (links : List String) :
    appendHrefs links attrs
      = links ++ (attrs.filter (fun a => a.Key = "href")).map (fun a => a.Val) := by
  unfold appendHrefs
  induction attrs generalizing links with
  | nil => simp
  | cons a rest ih =>
    by_cases h : a.Key = "href"
    · simp [List.foldl_cons, ih, h, List.filter_cons]
    · simp [List.foldl_cons, ih, h, List.filter_cons]

theorem anchorHrefs_mk (ty : html.NodeType) (data : String) (attr : List html.Attribute)
    (children : List html.Node) (links : List String) :
    (if ty = html.NodeType.ElementNode ∧ data = "a" then appendHrefs links attr else links)
      = links ++ anchorHrefs (.mk ty data attr children) := by
  unfold anchorHrefs
  by_cases h : ty = html.NodeType.ElementNode ∧ data = "a"
  · simp only [h, and_self, if_true, appendHrefs_eq]
  · simp only [h, if_false, List.append_nil]

mutual
theorem findLinks_eq : ∀ (n : html.Node) (links : List String),
    findLinks n links = links ++ (preorder n).flatMap anchorHrefs
  | .mk ty data attr children, links => by
    rw [findLinks, findLinksFrom_eq children, anchorHrefs_mk ty data attr children, preorder]
    simp [List.flatMap_cons]
theorem findLinksFrom_eq : ∀ (cs : List html.Node) (links : List String),
    findLinksFrom cs links = links ++ (preorderAll cs).flatMap anchorHrefs
  | [], links => by simp [findLinksFrom, preorderAll]
  | c :: cs, links => by
    rw [findLinksFrom, findLinks_eq c, findLinksFrom_eq cs, preorderAll]
    simp [List.flatMap_append]
end

mutual
theorem findLinksCalls_eq : ∀ (n : html.Node), findLinksCalls n = preorder n
  | .mk ty data attr children => by
    rw [findLinksCalls, preorder, findLinksCallsFrom_eq children]
theorem findLinksCallsFrom_eq : ∀ (cs : List html.Node),
    findLinksCallsFrom cs = preorderAll cs
  | [] => by rw [findLinksCallsFrom, preorderAll]
  | c :: cs => by
    rw [findLinksCallsFrom, preorderAll, findLinksCalls_eq c, findLinksCallsFrom_eq cs]
end

mutual
theorem length_preorder : ∀ (n : html.Node), (preorder n).length = nodeCount n
  | .mk ty data attr children => by
    rw [preorder, nodeCount, List.length_cons, length_preorderAll children, Nat.add_comm]
theorem length_preorderAll : ∀ (cs : List html.Node),
    (preorderAll cs).length = nodeCountAll cs
  | [] => by rw [preorderAll, nodeCountAll, List.length_nil]
  | c :: cs => by
    rw [preorderAll, nodeCountAll, List.length_append, length_preorder c, length_preorderAll cs]
end

/-- C9. For every document tree that `html.Parse` returns, `extractLinks` returns
exactly the "href" values of the anchor elements in depth-first pre-order; the
walk calls `findLinks` on the nodes in pre-order, once per node. -/
theorem extractLinks_document_order (w : World) (htmlContent : String) (doc : html.Node)
    (h : w.htmlParse htmlContent = .ok doc) :
    extractLinks w htmlContent = .ok (hrefsInDocumentOrder doc)
      ∧ findLinksCalls doc = preorder doc
      ∧ (findLinksCalls doc).length = nodeCount doc := by
  refine ⟨?_, findLinksCalls_eq doc, ?_⟩
  · simp [extractLinks, h, hrefsInDocumentOrder, findLinks_eq]
  · rw [findLinksCalls_eq, length_preorder]

/-- C9, on a document with an anchor, an anchor without "href", an "href" on a
`link` element and on a text node, and nested anchors: the four "href" values of
anchors are returned in document order, and the walk makes one call per node. -/
theorem extractLinks_document_order_witness :
    mixedWorld.htmlParse "mixed" = .ok mixedDoc
      ∧ hrefsInDocumentOrder mixedDoc = ["/first", "/second", "/third", "/fourth"]
      ∧ nodeCount mixedDoc = 10
      ∧ extractLinks mixedWorld "mixed" = .ok (hrefsInDocumentOrder mixedDoc)
      ∧ findLinksCalls mixedDoc = preorder mixedDoc
      ∧ (findLinksCalls mixedDoc).length = nodeCount mixedDoc :=
  ⟨rfl, by decide, by decide, extractLinks_document_order mixedWorld "mixed" mixedDoc rfl⟩

theorem perm_cons_eraseIdx {α : Type} : ∀ (l : List α) (i : Nat) (a : α),
    l[i]? = some a → List.Perm l (a :: l.eraseIdx i)
  | [], i, a, h => by simp at h
  | b :: l, 0, a, h => by
    simp at h
    subst h
    simp
  | b :: l, i + 1, a, h => by
    simp at h
    have ih := perm_cons_eraseIdx l i a h
    simp only [List.eraseIdx_cons_succ]
    exact (List.Perm.cons b ih).trans (List.Perm.swap a b _)

theorem perm_set_eraseIdx {α : Type} : ∀ (l : List α) (i : Nat) (a x : α),
    l[i]? = some a → List.Perm (l.set i x) (x :: l.eraseIdx i)
  | [], i, a, x, h => by simp at h
  | b :: l, 0, a, x, h => by simp
  | b :: l, i + 1, a, x, h => by
    simp at h
    have ih := perm_set_eraseIdx l i a x h
    simp only [List.eraseIdx_cons_succ, List.set_cons_succ]
    exact (List.Perm.cons b ih).trans (List.Perm.swap x b _)

theorem inv_init (gl : Globals) (seedURL : String) : Inv gl (initState seedURL) := by
  constructor <;> simp [initState, fetchingUrls, Goroutine.depthOK]

theorem fetchingUrls_perm {l : List Goroutine} {i : Nat} {g : Goroutine}
    (hg : l[i]? = some g) :
    List.Perm (fetchingUrls l) (fetchingUrls [g] ++ fetchingUrls (l.eraseIdx i)) := by
  have := (perm_cons_eraseIdx l i g hg).filterMap (fun g =>
      match g with
      | .fetching u _ => some u
      | _ => none)
  unfold fetchingUrls
  rw [← List.filterMap_append]
  simpa using this

theorem fetchingUrls_set_perm {l : List Goroutine} {i : Nat} {g : Goroutine}
    (hg : l[i]? = some g) (x : Goroutine) :
    List.Perm (fetchingUrls (l.set i x)) (fetchingUrls [x] ++ fetchingUrls (l.eraseIdx i)) := by
  have := (perm_set_eraseIdx l i g x hg).filterMap (fun g =>
      match g with
      | .fetching u _ => some u
      | _ => none)
  unfold fetchingUrls
  rw [← List.filterMap_append]
  simpa using this

theorem inv_stepAt (gl : Globals) (w : World) (s : State) (i : Nat) (h : Inv gl s) :
    Inv gl (crawlStep gl w s i) := by
  unfold crawlStep
  cases hg : s.goroutines[i]? with
  | none => simpa using h
  | some g =>
    have hp := perm_cons_eraseIdx s.goroutines i g hg
    have hps := fun x => perm_set_eraseIdx s.goroutines i g x hg
    have hlen : s.goroutines.length = (s.goroutines.eraseIdx i).length + 1 := by
      simpa using hp.length_eq
    have hF := fetchingUrls_perm hg
    have hFs := fun x => fetchingUrls_set_perm hg x
    obtain ⟨h1, h2, h3, h4, h5, h6, h7, h8⟩ := h
    have h8r : ∀ g ∈ s.goroutines.eraseIdx i, g.depthOK gl := fun g hgm =>
      h8 g (hp.mem_iff.mpr (List.mem_cons_of_mem _ hgm))
    have h8g : g.depthOK gl := h8 g (hp.mem_iff.mpr (List.mem_cons_self _ _))
    have h8s : ∀ x : Goroutine, x.depthOK gl → ∀ g ∈ s.goroutines.set i x, g.depthOK gl := by
      intro x hx g hgm
      rcases List.mem_cons.mp ((hps x).mem_iff.mp hgm) with rfl | hm
      · exact hx
      · exact h8r g hm
    cases g with
    | started url depth =>
      have hF0 : List.Perm (fetchingUrls s.goroutines) (fetchingUrls (s.goroutines.eraseIdx i)) := by
        simpa [fetchingUrls] using hF
      simp only []
      split_ifs with hd hv
      · exact
          { wg_eq := by simp [State.finish]; omega
            nodup := ((hF0.append_right _).nodup_iff).mp h2
            sub_visited := fun u hu => h3 u (((hF0.append_right _).mem_iff).mpr hu)
            visited_marked := h4
            marked_depth := h5
            fetched_depth := h6
            created_depth := h7
            depth_ok := h8r }
      · exact
          { wg_eq := by simp [State.finish]; omega
            nodup := ((hF0.append_right _).nodup_iff).mp h2
            sub_visited := fun u hu => h3 u (((hF0.append_right _).mem_iff).mpr hu)
            visited_marked := h4
            marked_depth := h5
            fetched_depth := h6
            created_depth := h7
            depth_ok := h8r }
      · have hFn : List.Perm (fetchingUrls (s.goroutines.set i (.fetching url depth)))
            (url :: fetchingUrls s.goroutines) := by
          refine (hFs _).trans ?_
          simpa [fetchingUrls] using hF0.symm
        have hnew : List.Perm
            (fetchingUrls (s.goroutines.set i (.fetching url depth)) ++ s.fetched.map Prod.fst)
            (url :: (fetchingUrls s.goroutines ++ s.fetched.map Prod.fst)) := by
          simpa using hFn.append_right (s.fetched.map Prod.fst)
        exact
          { wg_eq := by simpa using h1
            nodup := (hnew.nodup_iff).mpr (List.nodup_cons.mpr ⟨fun hu => hv (h3 url hu), h2⟩)
            sub_visited := by
              intro u hu
              rcases List.mem_cons.mp ((hnew.mem_iff).mp hu) with rfl | hm
              · exact List.mem_cons_self _ _
              · exact List.mem_cons_of_mem _ (h3 u hm)
            visited_marked := by
              intro u
              simp only [List.mem_cons, List.map_append, List.mem_append, h4 u, List.map_cons,
                List.map_nil, List.mem_singleton]
              tauto
            marked_depth := by
              intro p hp'
              rcases List.mem_append.mp hp' with hm | hm
              · exact h5 p hm
              · simp at hm
                subst hm
                simpa using hd
            fetched_depth := h6
            created_depth := h7
            depth_ok := h8s _ (by simpa [Goroutine.depthOK] using hd) }
    | fetching url depth =>
      have hF1 : List.Perm (fetchingUrls s.goroutines)
          (url :: fetchingUrls (s.goroutines.eraseIdx i)) := by
        simpa [fetchingUrls] using hF
      have hdep : depth ≤ gl.maxDepth := h8g
      have hlog : List.Perm
          (fetchingUrls (s.goroutines.eraseIdx i) ++ (s.fetched ++ [(url, depth)]).map Prod.fst)
          (fetchingUrls s.goroutines ++ s.fetched.map Prod.fst) := by
        refine List.Perm.trans ?_ (hF1.append_right _).symm
        simp only [List.map_append, List.map_cons, List.map_nil, List.cons_append]
        rw [← List.append_assoc]
        exact List.perm_append_singleton _ _
      have hfd : ∀ p ∈ s.fetched ++ [(url, depth)], p.2 ≤ gl.maxDepth := by
        intro p hp'
        rcases List.mem_append.mp hp' with hm | hm
        · exact h6 p hm
        · simp at hm
          subst hm
          exact hdep
      have hfin : Inv gl (State.finish { s with fetched := s.fetched ++ [(url, depth)] } i) :=
        { wg_eq := by simp [State.finish]; omega
          nodup := (hlog.nodup_iff).mpr h2
          sub_visited := fun u hu => h3 u ((hlog.mem_iff).mp hu)
          visited_marked := h4
          marked_depth := h5
          fetched_depth := hfd
          created_depth := h7
          depth_ok := h8r }
      simp only []
      split
      · exact hfin
      · split
        · exact hfin
        · rename_i links _
          have hFc : List.Perm (fetchingUrls (s.goroutines.set i (.spawning url depth links)))
              (fetchingUrls (s.goroutines.eraseIdx i)) := by
            simpa [fetchingUrls] using hFs (.spawning url depth links)
          have hlog2 := (hFc.append_right ((s.fetched ++ [(url, depth)]).map Prod.fst)).trans hlog
          exact
            { wg_eq := by simpa [State.continueAs] using h1
              nodup := (hlog2.nodup_iff).mpr h2
              sub_visited := fun u hu => h3 u ((hlog2.mem_iff).mp hu)
              visited_marked := h4
              marked_depth := h5
              fetched_depth := hfd
              created_depth := h7
              depth_ok := h8s _ hdep }
    | spawning url depth links =>
      have hF0 : List.Perm (fetchingUrls s.goroutines) (fetchingUrls (s.goroutines.eraseIdx i)) := by
        simpa [fetchingUrls] using hF
      have hdep : depth ≤ gl.maxDepth := h8g
      cases links with
      | nil =>
        exact
          { wg_eq := by simp [State.finish]; omega
            nodup := ((hF0.append_right _).nodup_iff).mp h2
            sub_visited := fun u hu => h3 u (((hF0.append_right _).mem_iff).mpr hu)
            visited_marked := h4
            marked_depth := h5
            fetched_depth := h6
            created_depth := h7
            depth_ok := h8r }
      | cons link links =>
        have hFc : List.Perm (fetchingUrls (s.goroutines.set i (.spawning url depth links)))
            (fetchingUrls s.goroutines) := by
          refine (hFs _).trans ?_
          simpa [fetchingUrls] using hF0.symm
        simp only []
        split
        · exact
            { wg_eq := by simpa [State.continueAs] using h1
              nodup := ((hFc.append_right _).nodup_iff).mpr h2
              sub_visited := fun u hu => h3 u (((hFc.append_right _).mem_iff).mp hu)
              visited_marked := h4
              marked_depth := h5
              fetched_depth := h6
              created_depth := h7
              depth_ok := h8s _ hdep }
        · rename_i n _
          have hFa : fetchingUrls
              (s.goroutines.set i (.spawning url depth links) ++ [.started n (depth + 1)])
              = fetchingUrls (s.goroutines.set i (.spawning url depth links)) := by
            simp [fetchingUrls, List.filterMap_append]
          exact
            { wg_eq := by simp [h1]
              nodup := by
                simp only [hFa]
                exact ((hFc.append_right _).nodup_iff).mpr h2
              sub_visited := by
                simp only [hFa]
                exact fun u hu => h3 u (((hFc.append_right _).mem_iff).mp hu)
              visited_marked := h4
              marked_depth := h5
              fetched_depth := h6
              created_depth := by
                intro p hp'
                rcases List.mem_append.mp hp' with hm | hm
                · exact h7 p hm
                · simp at hm
                  subst hm
                  simpa using hdep
              depth_ok := by
                intro g hgm
                rcases List.mem_append.mp hgm with hm | hm
                · exact h8s (.spawning url depth links) hdep g hm
                · simp at hm
                  subst hm
                  simpa [Goroutine.depthOK] using hdep }

theorem inv_runFrom (gl : Globals) (w : World) (sched : Nat → Nat) (s : State)
    (h : Inv gl s) : ∀ n, Inv gl (runFrom gl w sched s n)
  | 0 => h
  | n + 1 => inv_stepAt gl w _ _ (inv_runFrom gl w sched s h n)

theorem inv_run (gl : Globals) (w : World) (seedURL : String) (sched : Nat → Nat) (n : Nat) :
    Inv gl (run gl w seedURL sched n) :=
  inv_runFrom gl w sched _ (inv_init gl seedURL) n

/-! ### The cost of a state decreases with every step -/

theorem startCost_pos (gl : Globals) (w : World) (fuel : Nat) (u : String) :
    1 ≤ startCost gl w fuel u := by
  cases fuel with
  | zero => simp [startCost]
  | succ k => simp [startCost]

theorem cost_pos (gl : Globals) (w : World) (g : Goroutine) : 1 ≤ g.cost gl w := by
  cases g with
  | started u d => exact startCost_pos gl w _ u
  | fetching u d => simp [Goroutine.cost, fetchCost]
  | spawning u d links => simp [Goroutine.cost, spawnCost]

theorem cost_eq_zero_iff (gl : Globals) (w : World) (s : State) :
    s.cost gl w = 0 ↔ s.goroutines = [] := by
  unfold State.cost
  constructor
  · intro h
    cases hl : s.goroutines with
    | nil => rfl
    | cons g rest =>
      rw [hl] at h
      have := cost_pos gl w g
      simp at h
      omega
  · intro h
    simp [h]

theorem stepAt_nil (gl : Globals) (w : World) (s : State) (i : Nat)
    (h : s.goroutines = []) : crawlStep gl w s i = s := by
  unfold crawlStep
  simp [h]

theorem cost_stepAt (gl : Globals) (w : World) (s : State) (i : Nat) (g : Goroutine)
    (hg : s.goroutines[i]? = some g) :
    (crawlStep gl w s i).cost gl w + 1 ≤ s.cost gl w := by
  have hp := perm_cons_eraseIdx s.goroutines i g hg
  have hps := fun x => perm_set_eraseIdx s.goroutines i g x hg
  have hsum : s.cost gl w
      = g.cost gl w + ((s.goroutines.eraseIdx i).map (Goroutine.cost gl w)).sum := by
    unfold State.cost
    rw [(hp.map _).sum_eq]
    simp
  have hset : ∀ x : Goroutine, ((s.goroutines.set i x).map (Goroutine.cost gl w)).sum
      = x.cost gl w + ((s.goroutines.eraseIdx i).map (Goroutine.cost gl w)).sum := by
    intro x
    rw [((hps x).map _).sum_eq]
    simp
  rw [hsum]
  unfold crawlStep
  rw [hg]
  cases g with
  | started url depth =>
    simp only []
    split_ifs with hd hv
    · have := startCost_pos gl w (gl.maxDepth + 1 - depth) url
      simp only [State.finish, State.cost, Goroutine.cost]
      omega
    · have := startCost_pos gl w (gl.maxDepth + 1 - depth) url
      simp only [State.finish, State.cost, Goroutine.cost]
      omega
    · have hfuel : gl.maxDepth + 1 - depth = (gl.maxDepth - depth) + 1 := by omega
      simp only [State.cost, hset, Goroutine.cost, hfuel, startCost]
      omega
  | fetching url depth =>
    simp only []
    split
    · rename_i e he
      simp only [State.finish, State.cost, Goroutine.cost, fetchCost]
      omega
    · rename_i content hc
      split
      · simp only [State.finish, State.cost, Goroutine.cost, fetchCost]
        omega
      · rename_i links hl
        simp only [State.continueAs, State.cost, hset, Goroutine.cost, fetchCost, hc, hl]
        omega
  | spawning url depth links =>
    cases links with
    | nil =>
      simp only [State.finish, State.cost, Goroutine.cost, spawnCost]
      omega
    | cons link links =>
      simp only []
      split
      · rename_i e he
        simp only [State.continueAs, State.cost, hset, Goroutine.cost, spawnCost, List.map_cons,
          List.sum_cons, he]
        omega
      · rename_i n hn
        have hfuel : gl.maxDepth + 1 - (depth + 1) = gl.maxDepth - depth := by omega
        have hold : (Goroutine.spawning url depth (link :: links)).cost gl w
            = 1 + startCost gl w (gl.maxDepth - depth) n
              + (Goroutine.spawning url depth links).cost gl w := by
          simp only [Goroutine.cost, spawnCost, List.map_cons, List.sum_cons, hn]
          ring
        have hnew : (Goroutine.started n (depth + 1)).cost gl w
            = startCost gl w (gl.maxDepth - depth) n := by
          simp only [Goroutine.cost, hfuel]
        rw [hold]
        simp only [State.cost, List.map_append, List.sum_append, hset, List.map_cons,
          List.map_nil, List.sum_cons, List.sum_nil, hnew]
        omega

theorem cost_step (gl : Globals) (w : World) (s : State) (pick : Nat)
    (h : s.goroutines ≠ []) : (step gl w s pick).cost gl w + 1 ≤ s.cost gl w := by
  unfold step
  have hlt : pick % s.goroutines.length < s.goroutines.length :=
    Nat.mod_lt _ (List.length_pos.mpr h)
  exact cost_stepAt gl w s _ (s.goroutines[pick % s.goroutines.length])
    (List.getElem?_eq_getElem hlt)

theorem cost_runFrom (gl : Globals) (w : World) (sched : Nat → Nat) (s : State) :
    ∀ n, (runFrom gl w sched s n).goroutines = []
      ∨ (runFrom gl w sched s n).cost gl w + n ≤ s.cost gl w
  | 0 => Or.inr (by simp [runFrom])
  | n + 1 => by
    rcases cost_runFrom gl w sched s n with h | h
    · left
      simp only [runFrom, step]
      rw [stepAt_nil gl w _ _ h]
      exact h
    · by_cases hne : (runFrom gl w sched s n).goroutines = []
      · left
        simp only [runFrom, step]
        rw [stepAt_nil gl w _ _ hne]
        exact hne
      · right
        have := cost_step gl w (runFrom gl w sched s n) (sched n) hne
        simp only [runFrom]
        omega

theorem runFrom_done (gl : Globals) (w : World) (sched : Nat → Nat) (s : State) (k : Nat) :
    (runFrom gl w sched s (s.cost gl w + k)).goroutines = [] := by
  rcases cost_runFrom gl w sched s (s.cost gl w + k) with h | h
  · exact h
  · exact (cost_eq_zero_iff gl w _).mp (by omega)

/-! ### Finite sets closed under the steps -/

theorem mem_of_getElem?_eq_some {α : Type} {l : List α} {i : Nat} {a : α}
    (h : l[i]? = some a) : a ∈ l := by
  obtain ⟨hi, rfl⟩ := List.getElem?_eq_some.mp h
  exact List.getElem_mem hi

theorem crawlStep_closed (gl : Globals) (w : World) (A : List Goroutine) (V : List String)
    (hA : closedUnder gl w A V = true) (s : State) (i : Nat)
    (hG : ∀ g ∈ s.goroutines, g ∈ A) (hV : ∀ u ∈ s.visited, u ∈ V) :
    (∀ g ∈ (crawlStep gl w s i).goroutines, g ∈ A)
      ∧ (∀ u ∈ (crawlStep gl w s i).visited, u ∈ V) := by
  have hfin : ∀ g ∈ s.goroutines.eraseIdx i, g ∈ A := fun g hg =>
    hG g (List.mem_of_mem_eraseIdx hg)
  have hset : ∀ x ∈ A, ∀ g ∈ s.goroutines.set i x, g ∈ A := by
    intro x hx g hg
    rcases List.mem_or_eq_of_mem_set hg with h | h
    · exact hG g h
    · exact h ▸ hx
  unfold crawlStep
  cases hg : s.goroutines[i]? with
  | none => exact ⟨hG, hV⟩
  | some g =>
    have hgA : g ∈ A := hG g (mem_of_getElem?_eq_some hg)
    have hstay : g.staysIn gl w A V = true := List.all_eq_true.mp hA g hgA
    cases g with
    | started url depth =>
      simp only [Goroutine.staysIn, Bool.or_eq_true, Bool.and_eq_true, decide_eq_true_eq] at hstay
      simp only []
      split_ifs with hd hv
      · exact ⟨hfin, hV⟩
      · exact ⟨hfin, hV⟩
      · rcases hstay with h | ⟨h1, h2⟩
        · exact absurd h hd
        · refine ⟨hset _ h2, ?_⟩
          intro u hu
          rcases List.mem_cons.mp hu with rfl | hu
          · exact h1
          · exact hV u hu
    | fetching url depth =>
      simp only [Goroutine.staysIn] at hstay
      simp only []
      split
      · exact ⟨hfin, hV⟩
      · rename_i content hc
        rw [hc] at hstay
        simp only [] at hstay
        split
        · exact ⟨hfin, hV⟩
        · rename_i links hl
          rw [hl] at hstay
          exact ⟨hset _ (of_decide_eq_true hstay), hV⟩
    | spawning url depth links =>
      cases links with
      | nil => exact ⟨hfin, hV⟩
      | cons link links =>
        simp only [Goroutine.staysIn, Bool.and_eq_true, decide_eq_true_eq] at hstay
        obtain ⟨h1, h2⟩ := hstay
        simp only []
        split
        · exact ⟨hset _ h1, hV⟩
        · rename_i n hn
          rw [hn] at h2
          refine ⟨?_, hV⟩
          intro g hgm
          rcases List.mem_append.mp hgm with hm | hm
          · exact hset _ h1 g hm
          · rw [List.mem_singleton.mp hm]
            exact of_decide_eq_true h2

theorem run_closed (gl : Globals) (w : World) (A : List Goroutine) (V : List String)
    (hA : closedUnder gl w A V = true) (seedURL : String) (hseed : .started seedURL 0 ∈ A)
    (sched : Nat → Nat) : ∀ n,
    (∀ g ∈ (run gl w seedURL sched n).goroutines, g ∈ A)
      ∧ (∀ u ∈ (run gl w seedURL sched n).visited, u ∈ V)
  | 0 => by
    refine ⟨fun g hg => ?_, fun u hu => ?_⟩
    · simp only [run, runFrom, initState, List.mem_singleton] at hg
      exact hg ▸ hseed
    · simp [run, runFrom, initState] at hu
  | n + 1 =>
    crawlStep_closed gl w A V hA _ _ (run_closed gl w A V hA seedURL hseed sched n).1
      (run_closed gl w A V hA seedURL hseed sched n).2

set_option maxRecDepth 8000 in
theorem specWorld_closed :
    closedUnder ⟨1, exampleBase⟩ specWorld specGoroutines specVisited = true := by
  decide

/-! ### The loop over the links of a page -/

/-- The loop `for _, link := range links` as a whole: from the point where the
goroutine at index `i` enters the loop with `links`, as many steps of it as there
are links start one goroutine at `depth + 1` for every link that passes the filter,
in the order of the page, register each with the wait group, and change nothing
else. -/
theorem crawlSteps_spawning (gl : Globals) (w : World) (i : Nat) (url : String) (depth : Nat) :
    ∀ (links : List String) (s : State),
      s.goroutines[i]? = some (.spawning url depth links) →
      crawlSteps gl w i links.length s
        = { s with
            wg := s.wg + (acceptedLinks gl.baseDomain links).length
            goroutines := s.goroutines.set i (.spawning url depth [])
              ++ (acceptedLinks gl.baseDomain links).map (fun n => .started n (depth + 1))
            created := s.created
              ++ (acceptedLinks gl.baseDomain links).map (fun n => (n, depth + 1)) }
  | [], s, hg => by
    have hi : i < s.goroutines.length := (List.getElem?_eq_some.mp hg).1
    have hset : s.goroutines.set i (.spawning url depth []) = s.goroutines := by
      apply List.ext_getElem? 
      intro j
      by_cases hj : i = j
      · subst hj
        rw [List.getElem?_set_self hi, hg]
      · rw [List.getElem?_set_ne hj]
    simp [crawlSteps, acceptedLinks, hset]
  | link :: links, s, hg => by
    have hi : i < s.goroutines.length := (List.getElem?_eq_some.mp hg).1
    have hnext : (s.goroutines.set i (.spawning url depth links))[i]?
        = some (.spawning url depth links) := List.getElem?_set_self hi
    cases hn : normaliseAndFilterUrl gl.baseDomain link with
    | error e =>
      have hstep : crawlStep gl w s i = s.continueAs i (.spawning url depth links) := by
        unfold crawlStep
        rw [hg]
        simp only [hn]
      have ih := crawlSteps_spawning gl w i url depth links
        (s.continueAs i (.spawning url depth links)) hnext
      simp only [List.length_cons, crawlSteps, hstep, ih]
      simp [State.continueAs, acceptedLinks, hn]
    | ok n =>
      have hstep : crawlStep gl w s i
          = { s with
              wg := s.wg + 1
              goroutines :=
                s.goroutines.set i (.spawning url depth links) ++ [.started n (depth + 1)]
              created := s.created ++ [(n, depth + 1)] } := by
        unfold crawlStep
        rw [hg]
        simp only [hn]
      have hnext2 : (s.goroutines.set i (.spawning url depth links)
          ++ [Goroutine.started n (depth + 1)])[i]? = some (.spawning url depth links) := by
        rw [List.getElem?_append_left (by simpa using hi)]
        exact hnext
      have ih := crawlSteps_spawning gl w i url depth links
        { s with
          wg := s.wg + 1
          goroutines :=
            s.goroutines.set i (.spawning url depth links) ++ [.started n (depth + 1)]
          created := s.created ++ [(n, depth + 1)] } hnext2
      simp only [List.length_cons, crawlSteps, hstep, ih]
      have hset : (s.goroutines.set i (.spawning url depth links)
          ++ [Goroutine.started n (depth + 1)]).set i (.spawning url depth [])
          = s.goroutines.set i (.spawning url depth []) ++ [Goroutine.started n (depth + 1)] := by
        rw [List.set_append_left _ _ (by simpa using hi), List.set_set]
      simp only [hset, acceptedLinks, List.filterMap_cons, hn, List.length_cons, List.map_cons,
        List.append_assoc, List.singleton_append]
      congr 1
      push_cast
      ring

/-- A goroutine about to call `fetchURL`, whose fetch and extraction succeed with
`links`: one step more than there are links takes it through the call and the
whole loop. -/
theorem crawlSteps_fetching (gl : Globals) (w : World) (i : Nat) (url : String) (depth : Nat)
    (content : String) (links : List String) (s : State)
    (hg : s.goroutines[i]? = some (.fetching url depth))
    (hf : fetchURL w url = .ok content) (hx : extractLinks w content = .ok links) :
    crawlSteps gl w i (links.length + 1) s
      = { s with
          fetched := s.fetched ++ [(url, depth)]
          wg := s.wg + (acceptedLinks gl.baseDomain links).length
          goroutines := s.goroutines.set i (.spawning url depth [])
            ++ (acceptedLinks gl.baseDomain links).map (fun n => .started n (depth + 1))
          created := s.created
            ++ (acceptedLinks gl.baseDomain links).map (fun n => (n, depth + 1)) } := by
  have hi : i < s.goroutines.length := (List.getElem?_eq_some.mp hg).1
  have hstep : crawlStep gl w s i
      = State.continueAs { s with fetched := s.fetched ++ [(url, depth)] } i
          (.spawning url depth links) := by
    unfold crawlStep
    rw [hg]
    simp only [hf, hx]
  have hnext : (State.continueAs { s with fetched := s.fetched ++ [(url, depth)] } i
      (.spawning url depth links)).goroutines[i]? = some (.spawning url depth links) :=
    List.getElem?_set_self hi
  rw [crawlSteps, hstep, crawlSteps_spawning gl w i url depth links _ hnext]
  simp [State.continueAs, List.set_set]

/-- A started goroutine within the depth bound whose URL is new, and whose fetch and
extraction succeed with `links`: two steps more than there are links take it
through the whole body of `crawl` up to the end of the loop. -/
theorem crawlSteps_started (gl : Globals) (w : World) (i : Nat) (url : String) (depth : Nat)
    (content : String) (links : List String) (s : State)
    (hg : s.goroutines[i]? = some (.started url depth))
    (hd : depth ≤ gl.maxDepth) (hv : url ∉ s.visited)
    (hf : fetchURL w url = .ok content) (hx : extractLinks w content = .ok links) :
    crawlSteps gl w i (links.length + 2) s
      = { s with
          visited := url :: s.visited
          marked := s.marked ++ [(url, depth)]
          fetched := s.fetched ++ [(url, depth)]
          wg := s.wg + (acceptedLinks gl.baseDomain links).length
          goroutines := s.goroutines.set i (.spawning url depth [])
            ++ (acceptedLinks gl.baseDomain links).map (fun n => .started n (depth + 1))
          created := s.created
            ++ (acceptedLinks gl.baseDomain links).map (fun n => (n, depth + 1)) } := by
  have hi : i < s.goroutines.length := (List.getElem?_eq_some.mp hg).1
  have hstep : crawlStep gl w s i
      = { s with
          visited := url :: s.visited
          marked := s.marked ++ [(url, depth)]
          goroutines := s.goroutines.set i (.fetching url depth) } := by
    unfold crawlStep
    rw [hg]
    simp only [Nat.not_lt.mpr hd, hv, if_false]
  have hnext : ({ s with
      visited := url :: s.visited
      marked := s.marked ++ [(url, depth)]
      goroutines := s.goroutines.set i (.fetching url depth) } : State).goroutines[i]?
      = some (.fetching url depth) := List.getElem?_set_self hi
  rw [crawlSteps, hstep, crawlSteps_fetching gl w i url depth content links _ hnext hf hx]
  simp [List.set_set]

/-! ## Properties of the crawl -/

/-- The seed of `main.go` parses: `main` sets `baseDomain` to the URL with the scheme
`https`, the host `www.google.com` and the path `/`, and starts the crawl. -/
theorem mainGlobals_seedURL :
    mainGlobals maxDepth seedURL
      = some ⟨2, ⟨"https", "", none, "www.google.com", "/", "", false, false, "", "", ""⟩⟩ := by
  rfl

/-- C1 (dedup). For every seed, every world (link graph) and every interleaving of
the goroutines' steps, the log of the calls of `fetchURL` holds each URL string
at most once. -/
theorem fetchURL_at_most_once (gl : Globals) (w : World) (seedURL : String)
    (sched : Nat → Nat) (n : Nat) :
    ((run gl w seedURL sched n).fetched.map Prod.fst).Nodup :=
  ((List.nodup_append.mp (inv_run gl w seedURL sched n).nodup).2).1

/-- C1, at a seed page that links twice to `/a`: two goroutines carrying
`https://example.test/a` are pending at the same time, and at the end of the run
the URL has been fetched once. -/
theorem fetchURL_at_most_once_witness :
    (run ⟨2, exampleBase⟩ twiceWorld "https://example.test/" firstAlways 5).goroutines
        = [.started "https://example.test/a" 1, .started "https://example.test/a" 1]
      ∧ (run ⟨2, exampleBase⟩ twiceWorld "https://example.test/" firstAlways 13).goroutines = []
      ∧ (run ⟨2, exampleBase⟩ twiceWorld "https://example.test/" firstAlways 13).fetched
        = [("https://example.test/", 0), ("https://example.test/a", 1)]
      ∧ ((run ⟨2, exampleBase⟩ twiceWorld "https://example.test/" firstAlways 13).fetched.map
          Prod.fst).Nodup :=
  ⟨by decide, by decide, by decide,
    fetchURL_at_most_once ⟨2, exampleBase⟩ twiceWorld "https://example.test/" firstAlways 13⟩

/-- C3 (depth bound on visited nodes). For every seed, every `maxDepth`, every
world and every interleaving: every `(url, depth)` that `crawl` marks as visited
or passes to `fetchURL` has `depth ≤ maxDepth`, and every key of the map `visited`
was marked at such a depth. -/
theorem visited_depth_le_maxDepth (gl : Globals) (w : World) (seedURL : String)
    (sched : Nat → Nat) (n : Nat) :
    (∀ p ∈ (run gl w seedURL sched n).marked, p.2 ≤ gl.maxDepth)
      ∧ (∀ p ∈ (run gl w seedURL sched n).fetched, p.2 ≤ gl.maxDepth)
      ∧ (∀ u ∈ (run gl w seedURL sched n).visited,
          ∃ d, d ≤ gl.maxDepth ∧ (u, d) ∈ (run gl w seedURL sched n).marked) := by
  have h := inv_run gl w seedURL sched n
  refine ⟨h.marked_depth, h.fetched_depth, ?_⟩
  intro u hu
  obtain ⟨p, hp, rfl⟩ := List.mem_map.mp ((h.visited_marked u).mp hu)
  exact ⟨p.2, h.marked_depth p hp, hp⟩

set_option maxRecDepth 8000 in
/-- C3, in the scenario of the specification with `maxDepth = 1`: under every
scheduler the keys of `visited` and the URLs fetched stay within the seed page, `/a`
and `/b`, so the children `/a/1` and `/b/1`, started at depth 2, are never fetched
and never enter `visited`; the run that always picks the first goroutine ends with
exactly these three pages visited and fetched. -/
theorem visited_depth_le_maxDepth_witness :
    (∀ (sched : Nat → Nat) (n : Nat) (u : String),
        u ∈ (run ⟨1, exampleBase⟩ specWorld "https://example.test/" sched n).visited
          ∨ u ∈ (run ⟨1, exampleBase⟩ specWorld "https://example.test/" sched n).fetched.map
              Prod.fst →
        u ∈ specVisited)
      ∧ "https://example.test/a/1" ∉ specVisited
      ∧ "https://example.test/b/1" ∉ specVisited
      ∧ (run ⟨1, exampleBase⟩ specWorld "https://example.test/" firstAlways 16).goroutines = []
      ∧ (run ⟨1, exampleBase⟩ specWorld "https://example.test/" firstAlways 16).visited
        = ["https://example.test/b", "https://example.test/a", "https://example.test/"]
      ∧ (run ⟨1, exampleBase⟩ specWorld "https://example.test/" firstAlways 16).fetched
        = [("https://example.test/", 0), ("https://example.test/a", 1),
           ("https://example.test/b", 1)]
      ∧ (∀ p ∈ (run ⟨1, exampleBase⟩ specWorld "https://example.test/" firstAlways 16).fetched,
          p.2 ≤ 1) := by
  refine ⟨?_, by decide, by decide, by decide, by decide, by decide,
    (visited_depth_le_maxDepth ⟨1, exampleBase⟩ specWorld "https://example.test/"
      firstAlways 16).2.1⟩
  intro sched n u hu
  have hclosed := (run_closed ⟨1, exampleBase⟩ specWorld specGoroutines specVisited
    specWorld_closed "https://example.test/" (by decide) sched n).2
  rcases hu with hu | hu
  · exact hclosed u hu
  · exact hclosed u ((inv_run ⟨1, exampleBase⟩ specWorld "https://example.test/" sched
      n).sub_visited u (List.mem_append_right _ hu))

/-- C5 (termination). For every seed, every `maxDepth`, every world (every
outcome of the fetches) and every scheduler, after `State.cost` steps, and at
every later step, no goroutine is left and the counter of the wait group is zero. -/
theorem crawl_terminates (gl : Globals) (w : World) (seedURL : String) (sched : Nat → Nat)
    (k : Nat) :
    (run gl w seedURL sched ((initState seedURL).cost gl w + k)).goroutines = []
      ∧ (run gl w seedURL sched ((initState seedURL).cost gl w + k)).wg = 0 := by
  have hdone := runFrom_done gl w sched (initState seedURL) k
  have h := (inv_run gl w seedURL sched ((initState seedURL).cost gl w + k)).wg_eq
  refine ⟨hdone, ?_⟩
  rw [h]
  unfold run
  rw [hdone]
  rfl

/-- C5, with a child whose fetch fails: the fetch of `/a` returns an error, the
crawl ends within the bound of 10 steps with the counter at zero, and the sibling
`/b` has been visited. -/
theorem crawl_terminates_witness :
    fetchURL failingWorld "https://example.test/a" = .error "connection refused"
      ∧ (initState "https://example.test/").cost ⟨1, exampleBase⟩ failingWorld = 10
      ∧ "https://example.test/b"
          ∈ (run ⟨1, exampleBase⟩ failingWorld "https://example.test/" firstAlways 10).visited
      ∧ (run ⟨1, exampleBase⟩ failingWorld "https://example.test/" firstAlways
          ((initState "https://example.test/").cost ⟨1, exampleBase⟩ failingWorld + 0)).goroutines
          = []
      ∧ (run ⟨1, exampleBase⟩ failingWorld "https://example.test/" firstAlways
          ((initState "https://example.test/").cost ⟨1, exampleBase⟩ failingWorld + 0)).wg = 0 :=
  ⟨rfl, by decide, by decide,
    crawl_terminates ⟨1, exampleBase⟩ failingWorld "https://example.test/" firstAlways 0⟩

/-- The counter of the wait group equals, in every state of every run, the number
of goroutines of `crawl` that have not returned. -/
theorem wg_counts_goroutines (gl : Globals) (w : World) (seedURL : String)
    (sched : Nat → Nat) (n : Nat) :
    (run gl w seedURL sched n).wg = (run gl w seedURL sched n).goroutines.length :=
  (inv_run gl w seedURL sched n).wg_eq

/-- A link that stands twice on a page starts two goroutines: the loop of `crawl`
starts one per occurrence without looking at `visited`; a started goroutine whose
URL is in `visited` returns at once, without a fetch.  For the seed page with two
links to `/a`, two goroutines are started for `https://example.test/a` and one
fetch is made. -/
theorem duplicate_link_starts_two_goroutines (gl : Globals) (w : World) (s : State) (i : Nat) :
    (∀ url depth, s.goroutines[i]? = some (.started url depth) → url ∈ s.visited →
        crawlStep gl w s i = s.finish i)
      ∧ (run ⟨2, exampleBase⟩ twiceWorld "https://example.test/" firstAlways 13).created
        = [("https://example.test/", 0), ("https://example.test/a", 1),
           ("https://example.test/a", 1), ("https://example.test/", 2)]
      ∧ (run ⟨2, exampleBase⟩ twiceWorld "https://example.test/" firstAlways 13).fetched
        = [("https://example.test/", 0), ("https://example.test/a", 1)] := by
  refine ⟨?_, by decide, by decide⟩
  intro url depth hg hv
  unfold crawlStep
  rw [hg]
  simp only [hv, if_true, ite_self]

/-- C7, refuted: with `maxDepth = 1` the goroutine of `/a`, running at depth 1,
starts a goroutine for its link `/a/1` at depth 2. -/
theorem task_created_over_maxDepth :
    (run ⟨1, exampleBase⟩ specWorld "https://example.test/" firstAlways 8).goroutines[0]?
        = some (.spawning "https://example.test/a" 1 ["/a/1"])
      ∧ (run ⟨1, exampleBase⟩ specWorld "https://example.test/" firstAlways 9).goroutines
        = [.spawning "https://example.test/a" 1 [], .started "https://example.test/b" 1,
           .started "https://example.test/a/1" 2]
      ∧ ("https://example.test/a/1", 2)
          ∈ (run ⟨1, exampleBase⟩ specWorld "https://example.test/" firstAlways 9).created
      ∧ ¬ (∀ p ∈ (run ⟨1, exampleBase⟩ specWorld "https://example.test/" firstAlways 9).created,
          p.2 ≤ 1) := by
  refine ⟨by decide, by decide, by decide, ?_⟩
  intro h
  exact absurd (h ("https://example.test/a/1", 2) (by decide)) (by decide)

/-- C7, amended. For every run: every `go crawl(url, depth, ...)` has
`depth ≤ maxDepth + 1`; a goroutine that is in the loop over its links runs at a
depth `≤ maxDepth`; a goroutine started with `depth > maxDepth` returns at the
depth check: its step only removes it and decrements the counter; and a task
running at depth `maxDepth` (started there, its URL new, its fetch and extraction
successful) does start a goroutine at depth `maxDepth + 1`, registered with the
wait group, for every link it extracts that passes the filter. -/
theorem created_depth_le_succ_maxDepth (gl : Globals) (w : World) (seedURL : String)
    (sched : Nat → Nat) (n : Nat) :
    (∀ p ∈ (run gl w seedURL sched n).created, p.2 ≤ gl.maxDepth + 1)
      ∧ (∀ u d links, Goroutine.spawning u d links ∈ (run gl w seedURL sched n).goroutines →
          d ≤ gl.maxDepth)
      ∧ (∀ i u d, (run gl w seedURL sched n).goroutines[i]? = some (.started u d) →
          gl.maxDepth < d →
          crawlStep gl w (run gl w seedURL sched n) i = (run gl w seedURL sched n).finish i)
      ∧ (∀ i u content links,
          (run gl w seedURL sched n).goroutines[i]? = some (.started u gl.maxDepth) →
          u ∉ (run gl w seedURL sched n).visited →
          fetchURL w u = .ok content → extractLinks w content = .ok links →
          (crawlSteps gl w i (links.length + 2) (run gl w seedURL sched n)).goroutines
              = (run gl w seedURL sched n).goroutines.set i (.spawning u gl.maxDepth [])
                ++ (acceptedLinks gl.baseDomain links).map
                    (fun l => .started l (gl.maxDepth + 1))
            ∧ (crawlSteps gl w i (links.length + 2) (run gl w seedURL sched n)).created
              = (run gl w seedURL sched n).created
                ++ (acceptedLinks gl.baseDomain links).map (fun l => (l, gl.maxDepth + 1))
            ∧ (crawlSteps gl w i (links.length + 2) (run gl w seedURL sched n)).wg
              = (run gl w seedURL sched n).wg + (acceptedLinks gl.baseDomain links).length) := by
  have h := inv_run gl w seedURL sched n
  refine ⟨h.created_depth, fun u d links hm => h.depth_ok _ hm, ?_, ?_⟩
  · intro i u d hg hd
    unfold crawlStep
    rw [hg]
    simp only []
    rw [if_pos hd]
  · intro i u content links hg hv hf hx
    rw [crawlSteps_started gl w i u gl.maxDepth content links _ hg (le_refl _) hv hf hx]
    exact ⟨rfl, rfl, rfl⟩

set_option maxRecDepth 8000 in
/-- C7 amended, in the scenario of the specification with `maxDepth = 1`: the
goroutine of `/a`, started at depth 1, starts a goroutine for its link `/a/1` at
depth 2; that goroutine returns at its first step and leaves the logs as they
were. -/
theorem created_depth_le_succ_maxDepth_witness :
    (run ⟨1, exampleBase⟩ specWorld "https://example.test/" firstAlways 6).goroutines
        = [.started "https://example.test/a" 1, .started "https://example.test/b" 1]
      ∧ "https://example.test/a"
          ∉ (run ⟨1, exampleBase⟩ specWorld "https://example.test/" firstAlways 6).visited
      ∧ fetchURL specWorld "https://example.test/a" = .ok "page a"
      ∧ extractLinks specWorld "page a" = .ok ["/a/1"]
      ∧ acceptedLinks exampleBase ["/a/1"] = ["https://example.test/a/1"]
      ∧ (crawlSteps ⟨1, exampleBase⟩ specWorld 0 (["/a/1"].length + 2)
          (run ⟨1, exampleBase⟩ specWorld "https://example.test/" firstAlways 6)).goroutines
        = (run ⟨1, exampleBase⟩ specWorld "https://example.test/" firstAlways 6).goroutines.set 0
            (.spawning "https://example.test/a" 1 [])
          ++ (acceptedLinks exampleBase ["/a/1"]).map (fun l => .started l (1 + 1))
      ∧ (run ⟨1, exampleBase⟩ specWorld "https://example.test/" firstAlways 14).goroutines[0]?
        = some (.started "https://example.test/a/1" 2)
      ∧ (1 : Nat) < 2
      ∧ crawlStep ⟨1, exampleBase⟩ specWorld
          (run ⟨1, exampleBase⟩ specWorld "https://example.test/" firstAlways 14) 0
        = (run ⟨1, exampleBase⟩ specWorld "https://example.test/" firstAlways 14).finish 0 :=
  ⟨by decide, by decide, rfl, rfl, by decide,
    ((created_depth_le_succ_maxDepth ⟨1, exampleBase⟩ specWorld "https://example.test/"
      firstAlways 6).2.2.2 0 "https://example.test/a" "page a" ["/a/1"] (by decide) (by decide)
      rfl rfl).1,
    by decide, by decide,
    (created_depth_le_succ_maxDepth ⟨1, exampleBase⟩ specWorld "https://example.test/"
      firstAlways 14).2.2.1 0 "https://example.test/a/1" 2 (by decide) (by decide)⟩

/-- C8, refuted: the server answers the seed with status 404 and an HTML body;
`fetchURL` returns the body without an error, and `crawl` extracts the link `/x`
of that body and starts a goroutine for it. -/
theorem fetchURL_ok_on_status_404 :
    (notFoundWorld.httpGet "https://example.test/").map (fun r => r.StatusCode) = .ok 404
      ∧ fetchURL notFoundWorld "https://example.test/" = .ok "not found"
      ∧ (run ⟨1, exampleBase⟩ notFoundWorld "https://example.test/" firstAlways 2).goroutines
        = [.spawning "https://example.test/" 0 ["/x"]]
      ∧ (run ⟨1, exampleBase⟩ notFoundWorld "https://example.test/" firstAlways 3).goroutines
        = [.spawning "https://example.test/" 0 [], .started "https://example.test/x" 1] :=
  ⟨rfl, rfl, by decide, by decide⟩

/-- C8, amended. `fetchURL` returns an error exactly when `http.Get` returns one or
reading the body fails; the status code is not looked at: whenever the body can be
read, `fetchURL` returns it.  After an error of `fetchURL` the goroutine returns
without extracting or starting anything.  After a response of any status whose body
can be read and parses, the goroutine goes on to the loop over the "href" values of
the body, and the loop starts a goroutine, registered with the wait group, for
every one of them that passes the filter. -/
theorem fetchURL_error_iff (gl : Globals) (w : World) (url : String) :
    (∀ resp body, w.httpGet url = .ok resp → resp.Body = .ok body →
        fetchURL w url = .ok body)
      ∧ ((∃ e, fetchURL w url = .error e) ↔
          ((∃ e, w.httpGet url = .error e)
            ∨ ∃ resp e, w.httpGet url = .ok resp ∧ resp.Body = .error e))
      ∧ (∀ s i depth e, s.goroutines[i]? = some (.fetching url depth) →
          fetchURL w url = .error e →
          crawlStep gl w s i
            = State.finish { s with fetched := s.fetched ++ [(url, depth)] } i)
      ∧ (∀ s i depth resp body doc, s.goroutines[i]? = some (.fetching url depth) →
          w.httpGet url = .ok resp → resp.Body = .ok body → w.htmlParse body = .ok doc →
          crawlStep gl w s i
            = State.continueAs { s with fetched := s.fetched ++ [(url, depth)] } i
                (.spawning url depth (hrefsInDocumentOrder doc)))
      ∧ (∀ s i depth resp body doc, s.goroutines[i]? = some (.fetching url depth) →
          w.httpGet url = .ok resp → resp.Body = .ok body → w.htmlParse body = .ok doc →
          crawlSteps gl w i ((hrefsInDocumentOrder doc).length + 1) s
            = { s with
                fetched := s.fetched ++ [(url, depth)]
                wg := s.wg + (acceptedLinks gl.baseDomain (hrefsInDocumentOrder doc)).length
                goroutines := s.goroutines.set i (.spawning url depth [])
                  ++ (acceptedLinks gl.baseDomain (hrefsInDocumentOrder doc)).map
                      (fun l => .started l (depth + 1))
                created := s.created
                  ++ (acceptedLinks gl.baseDomain (hrefsInDocumentOrder doc)).map
                      (fun l => (l, depth + 1)) }) := by
  have hx : ∀ body doc, w.htmlParse body = .ok doc →
      extractLinks w body = .ok (hrefsInDocumentOrder doc) := by
    intro body doc h3
    simp [extractLinks, h3, hrefsInDocumentOrder, findLinks_eq]
  refine ⟨?_, ?_, ?_, ?_, ?_⟩
  · intro resp body h1 h2
    simp [fetchURL, h1, h2]
  · unfold fetchURL
    constructor
    · rintro ⟨e, he⟩
      cases h1 : w.httpGet url with
      | error e1 => exact Or.inl ⟨e1, rfl⟩
      | ok resp =>
        right
        rw [h1] at he
        cases h2 : resp.Body with
        | error e2 => exact ⟨resp, e2, rfl, h2⟩
        | ok body => simp [h2] at he
    · rintro (⟨e, he⟩ | ⟨resp, e, h1, h2⟩)
      · exact ⟨e, by simp [he]⟩
      · exact ⟨e, by simp [h1, h2]⟩
  · intro s i depth e hg he
    unfold crawlStep
    rw [hg]
    simp only [he]
  · intro s i depth resp body doc hg h1 h2 h3
    have hf : fetchURL w url = .ok body := by simp [fetchURL, h1, h2]
    unfold crawlStep
    rw [hg]
    simp only [hf, hx body doc h3]
  · intro s i depth resp body doc hg h1 h2 h3
    have hf : fetchURL w url = .ok body := by simp [fetchURL, h1, h2]
    exact crawlSteps_fetching gl w i url depth body (hrefsInDocumentOrder doc) s hg hf
      (hx body doc h3)

/-- C8 amended, at the server that answers the seed with status 404 and a body that
links to `/x`: two steps of the fetching goroutine start a goroutine for
`https://example.test/x` and raise the counter by one. -/
theorem fetchURL_error_iff_witness :
    (run ⟨1, exampleBase⟩ notFoundWorld "https://example.test/" firstAlways 1).goroutines
        = [.fetching "https://example.test/" 0]
      ∧ (notFoundWorld.httpGet "https://example.test/").map (fun r => r.StatusCode) = .ok 404
      ∧ notFoundWorld.htmlParse "not found" = .ok (pageWith ["/x"])
      ∧ acceptedLinks exampleBase (hrefsInDocumentOrder (pageWith ["/x"]))
        = ["https://example.test/x"]
      ∧ (crawlSteps ⟨1, exampleBase⟩ notFoundWorld 0
          ((hrefsInDocumentOrder (pageWith ["/x"])).length + 1)
          (run ⟨1, exampleBase⟩ notFoundWorld "https://example.test/" firstAlways 1)).goroutines
        = [.spawning "https://example.test/" 0 [], .started "https://example.test/x" 1]
      ∧ (crawlSteps ⟨1, exampleBase⟩ notFoundWorld 0
          ((hrefsInDocumentOrder (pageWith ["/x"])).length + 1)
          (run ⟨1, exampleBase⟩ notFoundWorld "https://example.test/" firstAlways 1)).wg = 2
      ∧ crawlSteps ⟨1, exampleBase⟩ notFoundWorld 0
          ((hrefsInDocumentOrder (pageWith ["/x"])).length + 1)
          (run ⟨1, exampleBase⟩ notFoundWorld "https://example.test/" firstAlways 1)
        = { run ⟨1, exampleBase⟩ notFoundWorld "https://example.test/" firstAlways 1 with
            fetched := (run ⟨1, exampleBase⟩ notFoundWorld "https://example.test/"
              firstAlways 1).fetched ++ [("https://example.test/", 0)]
            wg := (run ⟨1, exampleBase⟩ notFoundWorld "https://example.test/" firstAlways 1).wg
              + (acceptedLinks exampleBase (hrefsInDocumentOrder (pageWith ["/x"]))).length
            goroutines := (run ⟨1, exampleBase⟩ notFoundWorld "https://example.test/"
                firstAlways 1).goroutines.set 0 (.spawning "https://example.test/" 0 [])
              ++ (acceptedLinks exampleBase (hrefsInDocumentOrder (pageWith ["/x"]))).map
                  (fun l => .started l (0 + 1))
            created := (run ⟨1, exampleBase⟩ notFoundWorld "https://example.test/"
                firstAlways 1).created
              ++ (acceptedLinks exampleBase (hrefsInDocumentOrder (pageWith ["/x"]))).map
                  (fun l => (l, 0 + 1)) } :=
  ⟨by decide, rfl, rfl, by decide, by decide, by decide,
    (fetchURL_error_iff ⟨1, exampleBase⟩ notFoundWorld "https://example.test/").2.2.2.2
      (run ⟨1, exampleBase⟩ notFoundWorld "https://example.test/" firstAlways 1) 0 0
      ⟨404, .ok "not found"⟩ "not found" (pageWith ["/x"]) (by decide) rfl rfl rfl⟩

/-! ## Properties of `normaliseAndFilterUrl` -/

theorem normaliseAndFilterUrl_eq (baseDomain : URL) (link : String) (parsedURL : URL)
    (h : url.Parse link = .ok parsedURL) :
    normaliseAndFilterUrl baseDomain link
      = if (resolveLink baseDomain parsedURL).Host ≠ baseDomain.Host then
          .error "external domain"
        else .ok (url.toGoString { resolveLink baseDomain parsedURL with Fragment := "" }) := by
  unfold normaliseAndFilterUrl resolveLink
  rw [h]

/-- C2 (domain confinement). For every base URL and every link: a URL that
`normaliseAndFilterUrl` returns is the text of a URL whose host is the host of
the base; a link whose resolved host differs from the host of the base is
rejected with an error; and for a rejected link the loop of `crawl` starts no
goroutine. -/
theorem domain_confinement (baseDomain : URL) (link : String) :
    (∀ s, normaliseAndFilterUrl baseDomain link = .ok s →
        ∃ parsedURL u, url.Parse link = .ok parsedURL
          ∧ u = { resolveLink baseDomain parsedURL with Fragment := "" }
          ∧ u.Host = baseDomain.Host ∧ s = url.toGoString u)
      ∧ (∀ parsedURL, url.Parse link = .ok parsedURL →
          (resolveLink baseDomain parsedURL).Host ≠ baseDomain.Host →
          normaliseAndFilterUrl baseDomain link = .error "external domain")
      ∧ (∀ (maxDepth : Nat) (w : World) (s : State) (i : Nat) page depth links e,
          s.goroutines[i]? = some (.spawning page depth (link :: links)) →
          normaliseAndFilterUrl baseDomain link = .error e →
          crawlStep ⟨maxDepth, baseDomain⟩ w s i = s.continueAs i (.spawning page depth links)) := by
  refine ⟨?_, ?_, ?_⟩
  · intro s hs
    cases hp : url.Parse link with
    | error e => simp [normaliseAndFilterUrl, hp] at hs
    | ok parsedURL =>
      rw [normaliseAndFilterUrl_eq baseDomain link parsedURL hp] at hs
      by_cases hh : (resolveLink baseDomain parsedURL).Host = baseDomain.Host
      · rw [if_neg (not_not.mpr hh)] at hs
        injection hs with hs
        exact ⟨parsedURL, _, rfl, rfl, hh, hs.symm⟩
      · simp [hh] at hs
  · intro parsedURL hp hh
    rw [normaliseAndFilterUrl_eq baseDomain link parsedURL hp, if_pos hh]
  · intro maxDepth w s i page depth links e hg he
    unfold crawlStep
    rw [hg]
    simp only [he]

/-- C2, with the seed `https://example.test/`: the link `https://other.test/x` is
rejected and starts no goroutine, the link `/a` is accepted as
`https://example.test/a`. -/
theorem domain_confinement_witness :
    url.Parse "https://example.test/" = .ok exampleBase
      ∧ normaliseAndFilterUrl exampleBase "/a" = .ok "https://example.test/a"
      ∧ (url.Parse "https://example.test/a").map (fun u => u.Host) = .ok "example.test"
      ∧ (run ⟨1, exampleBase⟩ specWorld "https://example.test/" firstAlways 4).goroutines[0]?
        = some (.spawning "https://example.test/" 0 ["https://other.test/x"])
      ∧ normaliseAndFilterUrl exampleBase "https://other.test/x" = .error "external domain"
      ∧ crawlStep ⟨1, exampleBase⟩ specWorld
          (run ⟨1, exampleBase⟩ specWorld "https://example.test/" firstAlways 4) 0
        = (run ⟨1, exampleBase⟩ specWorld "https://example.test/" firstAlways 4).continueAs 0
            (.spawning "https://example.test/" 0 []) :=
  ⟨rfl, rfl, rfl, by decide, rfl,
    (domain_confinement exampleBase "https://other.test/x").2.2 1 specWorld
      (run ⟨1, exampleBase⟩ specWorld "https://example.test/" firstAlways 4) 0
      "https://example.test/" 0 [] "external domain" (by decide) rfl⟩

/-- C6, the code at the failing input: with the seed `https://example.test/` the
relative link `c` found on the page `https://example.test/a/b` is given to the
child goroutine as `https://example.test/c`, because `normaliseAndFilterUrl`
resolves it against `baseDomain`; resolved against the page that holds it, it is
`https://example.test/a/c`. -/
theorem relative_link_resolved_against_seed :
    (run ⟨2, exampleBase⟩ relativeWorld "https://example.test/" firstAlways 6).goroutines
        = [.spawning "https://example.test/a/b" 1 ["c"]]
      ∧ (run ⟨2, exampleBase⟩ relativeWorld "https://example.test/" firstAlways 7).goroutines
        = [.spawning "https://example.test/a/b" 1 [], .started "https://example.test/c" 2]
      ∧ normaliseAndFilterUrl exampleBase "c" = .ok "https://example.test/c"
      ∧ (url.Parse "https://example.test/a/b").bind (fun page =>
          (url.Parse "c").map (fun ref => url.toGoString (url.ResolveReference page ref)))
        = .ok "https://example.test/a/c" :=
  ⟨by decide, by decide, rfl, rfl⟩

/-! ## The rate limiter -/

theorem lt_next_after_ticks (next now d : Nat) (hd : 0 < d) (h : next ≤ now) :
    now < next + ((now - next) / d + 1) * d := by
  have h1 := Nat.lt_div_mul_add (a := now - next) hd
  have h2 : ((now - next) / d + 1) * d = (now - next) / d * d + d := by ring
  omega

theorem Ticker.recv_after (t : Ticker) (a : Nat × Nat) (call : Nat) (h : t.after a) :
    paced t.d a (t.recv call).1 ∧ (t.recv call).2.after (t.recv call).1
      ∧ (t.recv call).2.d = t.d := by
  obtain ⟨hd, hn, hb, ht, ha⟩ := h
  by_cases hc : t.next ≤ max t.now call
  · have hlt := lt_next_after_ticks t.next (max t.now call) t.d hd hc
    have hge : t.d ≤ ((max t.now call - t.next) / t.d + 1) * t.d :=
      Nat.le_mul_of_pos_left _ (Nat.succ_pos _)
    have hr : t.recv call = ((max t.now call, t.next),
        { d := t.d, now := max t.now call,
          next := t.next + ((max t.now call - t.next) / t.d + 1) * t.d, buffered := none }) := by
      simp [Ticker.recv, Ticker.advance, hc, hb]
    rw [hr]
    refine ⟨⟨ht, ?_, hc, fun e => ?_⟩, ⟨hd, hlt, rfl, Nat.add_le_add_left hge _, le_refl _⟩, rfl⟩
    · show a.1 < t.next
      omega
    · show a.1 + t.d ≤ max t.now call
      omega
  · have hr : t.recv call = ((t.next, t.next),
        { d := t.d, now := t.next, next := t.next + t.d, buffered := none }) := by
      simp [Ticker.recv, Ticker.advance, hc, hb]
    rw [hr]
    refine ⟨⟨ht, ?_, le_refl _, fun e => ?_⟩,
      ⟨hd, Nat.lt_add_of_pos_right hd, rfl, le_refl _, le_refl _⟩, rfl⟩
    · show a.1 < t.next
      omega
    · show a.1 + t.d ≤ t.next
      omega

theorem issuancesFrom_chain (d : Nat) : ∀ (calls : List Nat) (t : Ticker) (a : Nat × Nat),
    t.d = d → t.after a → List.Chain (paced d) a (issuancesFrom t calls)
  | [], _, _, _, _ => List.Chain.nil
  | call :: calls, t, a, hd, h => by
    obtain ⟨h1, h2, h3⟩ := t.recv_after a call h
    rw [hd] at h1
    exact List.Chain.cons h1 (issuancesFrom_chain d calls _ _ (h3.trans hd) h2)

theorem issuances_chain (d : Nat) (hd : 0 < d) (calls : List Nat) :
    List.Chain' (paced d) (issuances d calls) := by
  cases calls with
  | nil => exact List.chain'_nil
  | cons call calls =>
    have h0 : (NewTicker d).after (0, 0) := ⟨hd, hd, rfl, by simp [NewTicker], le_refl _⟩
    obtain ⟨_, h2, h3⟩ := (NewTicker d).recv_after (0, 0) call h0
    exact issuancesFrom_chain d calls _ _ h3 h2

theorem chain_consecutive {α : Type} {R : α → α → Prop} : ∀ (l : List α) (i : Nat) (a b : α),
    List.Chain' R l → l[i]? = some a → l[i + 1]? = some b → R a b
  | [], _, _, _, _, ha, _ => by simp at ha
  | [_], _, _, _, _, _, hb => by simp at hb
  | x :: y :: l, 0, a, b, h, ha, hb => by
    simp at ha hb
    subst ha hb
    exact (List.chain'_cons.mp h).1
  | x :: y :: l, i + 1, a, b, h, ha, hb =>
    chain_consecutive (y :: l) i a b (List.chain'_cons.mp h).2 (by simpa using ha)
      (by simpa using hb)

/-- C4, refuted: with `rateLimit` = 200 ms the first fetch is issued at 200 ms; no
fetch is asked for until 790 ms, so the tick of 400 ms waits in `C` and the tick of
600 ms is dropped; of two calls made at 790 ms the first is issued at once and the
second at the tick of 800 ms, which is 10 ms after the first and not 200 ms. -/
theorem fetches_closer_than_interval :
    issuances rateLimit [0, 790 * Millisecond, 790 * Millisecond]
        = [(200 * Millisecond, 200 * Millisecond), (790 * Millisecond, 400 * Millisecond),
           (800 * Millisecond, 800 * Millisecond)]
      ∧ ¬ (∀ i a b, (issuances rateLimit [0, 790 * Millisecond, 790 * Millisecond])[i]? = some a →
            (issuances rateLimit [0, 790 * Millisecond, 790 * Millisecond])[i + 1]? = some b →
            a.1 + rateLimit ≤ b.1) := by
  have h : issuances rateLimit [0, 790 * Millisecond, 790 * Millisecond]
      = [(200 * Millisecond, 200 * Millisecond), (790 * Millisecond, 400 * Millisecond),
         (800 * Millisecond, 800 * Millisecond)] := by decide
  refine ⟨h, fun hall => ?_⟩
  have := hall 1 (790 * Millisecond, 400 * Millisecond) (800 * Millisecond, 800 * Millisecond)
    (by rw [h]; rfl) (by rw [h]; rfl)
  exact absurd this (by decide)

/-- C4, amended. For every interval `d > 0` and every schedule of call times, any
two consecutive fetch issuances `a`, `b` are `paced`: the tick received by `b`
fires at least `d` after the tick received by `a`, and after `a` was issued; `b` is
issued no earlier than its tick fires; and the time between `a` and `b` is at least
`d` whenever `a` received its tick at the time it fired (the limiter had not sat
idle with a tick waiting in `C`).  In every case the second issuance after `a`
comes more than `d` after `a`. -/
theorem fetches_paced_by_ticks (d : Nat) (hd : 0 < d) (calls : List Nat) :
    (∀ i a b, (issuances d calls)[i]? = some a → (issuances d calls)[i + 1]? = some b →
        paced d a b)
      ∧ (∀ i a c, (issuances d calls)[i]? = some a → (issuances d calls)[i + 2]? = some c →
        a.1 + d < c.1) := by
  have hchain := issuances_chain d hd calls
  refine ⟨fun i a b ha hb => chain_consecutive _ i a b hchain ha hb, ?_⟩
  intro i a c ha hc
  have hlen : i + 1 < (issuances d calls).length := by
    have := (List.getElem?_eq_some.mp hc).1
    omega
  obtain ⟨h1, h2, h3, _⟩ := chain_consecutive _ i a _ hchain ha (List.getElem?_eq_getElem hlen)
  obtain ⟨g1, g2, g3, _⟩ := chain_consecutive _ (i + 1) _ c hchain
    (List.getElem?_eq_getElem hlen) hc
  omega

/-- C4 amended, at the schedule of the refutation: the second and the third fetch are
issued 10 ms apart, and the ticks they receive fire 400 ms apart. -/
theorem fetches_paced_by_ticks_witness :
    0 < rateLimit
      ∧ (issuances rateLimit [0, 790 * Millisecond, 790 * Millisecond])[1]?
        = some (790 * Millisecond, 400 * Millisecond)
      ∧ (issuances rateLimit [0, 790 * Millisecond, 790 * Millisecond])[1 + 1]?
        = some (800 * Millisecond, 800 * Millisecond)
      ∧ paced rateLimit (790 * Millisecond, 400 * Millisecond)
          (800 * Millisecond, 800 * Millisecond) :=
  ⟨by decide, by decide, by decide,
    (fetches_paced_by_ticks rateLimit (by decide) [0, 790 * Millisecond, 790 * Millisecond]).1 1
      (790 * Millisecond, 400 * Millisecond) (800 * Millisecond, 800 * Millisecond)
      (by decide) (by decide)⟩

namespace url

open encoding

theorem sameButFragment_refl (u : URL) : sameButFragment u u :=
  ⟨rfl, rfl, rfl, rfl, rfl, rfl, rfl, rfl, rfl⟩

theorem sameButFragment_symm {u v : URL} (h : sameButFragment u v) : sameButFragment v u := by
  obtain ⟨h1, h2, h3, h4, h5, h6, h7, h8, h9⟩ := h
  exact ⟨h1.symm, h2.symm, h3.symm, h4.symm, h5.symm, h6.symm, h7.symm, h8.symm, h9.symm⟩

theorem sameButFragment_trans {u v x : URL} (h : sameButFragment u v)
    (h' : sameButFragment v x) : sameButFragment u x := by
  obtain ⟨h1, h2, h3, h4, h5, h6, h7, h8, h9⟩ := h
  obtain ⟨g1, g2, g3, g4, g5, g6, g7, g8, g9⟩ := h'
  exact ⟨h1.trans g1, h2.trans g2, h3.trans g3, h4.trans g4, h5.trans g5, h6.trans g6,
    h7.trans g7, h8.trans g8, h9.trans g9⟩

theorem EscapedPath_congr {u v : URL} (h : sameButFragment u v) :
    EscapedPath u = EscapedPath v := by
  obtain ⟨h1, h2, h3, h4, h5, h6, h7, h8, h9⟩ := h
  unfold EscapedPath
  rw [h5, h6]

theorem setPathIgnoringError_congr {u v : URL} (p : List Char) (h : sameButFragment u v) :
    sameButFragment (setPathIgnoringError u p) (setPathIgnoringError v p) := by
  obtain ⟨h1, h2, h3, h4, h5, h6, h7, h8, h9⟩ := h
  unfold setPathIgnoringError setPath
  cases unescape encodePath p with
  | error e => exact ⟨h1, h2, h3, h4, h5, h6, h7, h8, h9⟩
  | ok path => exact ⟨h1, h2, h3, h4, rfl, rfl, h7, h8, h9⟩

theorem ResolveReference_congr (b : URL) {u v : URL} (h : sameButFragment u v) :
    sameButFragment (ResolveReference b u) (ResolveReference b v) := by
  have hE := EscapedPath_congr h
  obtain ⟨h1, h2, h3, h4, h5, h6, h7, h8, h9⟩ := h
  cases u
  cases v
  simp only at h1 h2 h3 h4 h5 h6 h7 h8 h9
  subst h1 h2 h3 h4 h5 h6 h7 h8 h9
  unfold ResolveReference
  rw [hE]
  dsimp only
  split_ifs <;>
    first
    | exact ⟨rfl, rfl, rfl, rfl, rfl, rfl, rfl, rfl, rfl⟩
    | exact setPathIgnoringError_congr _ ⟨rfl, rfl, rfl, rfl, rfl, rfl, rfl, rfl, rfl⟩

theorem toGoString_congr {u v : URL} (h : sameButFragment u v) :
    toGoString { u with Fragment := "" } = toGoString { v with Fragment := "" } := by
  have hE : EscapedPath { u with Fragment := "" } = EscapedPath { v with Fragment := "" } :=
    EscapedPath_congr h
  obtain ⟨h1, h2, h3, h4, h5, h6, h7, h8, h9⟩ := h
  unfold toGoString
  rw [hE]
  dsimp only
  rw [h1, h2, h3, h4, h5, h7, h8, h9]
  simp

theorem setFragment_same {u v : URL} {f : List Char} (h : setFragment u f = .ok v) :
    sameButFragment u v := by
  unfold setFragment at h
  cases hf : unescape encodeFragment f with
  | error e => simp [hf] at h
  | ok frag =>
    simp only [hf, Except.ok.injEq] at h
    subst h
    exact ⟨rfl, rfl, rfl, rfl, rfl, rfl, rfl, rfl, rfl⟩

end url

theorem normaliseAndFilterUrl_congr (baseDomain : URL) (l₁ l₂ : String) (u₁ u₂ : URL)
    (h₁ : url.Parse l₁ = .ok u₁) (h₂ : url.Parse l₂ = .ok u₂) (h : sameButFragment u₁ u₂) :
    normaliseAndFilterUrl baseDomain l₁ = normaliseAndFilterUrl baseDomain l₂ := by
  have hr : sameButFragment (resolveLink baseDomain u₁) (resolveLink baseDomain u₂) := by
    unfold resolveLink url.IsAbs
    rw [h.1]
    split_ifs
    · exact url.ResolveReference_congr baseDomain h
    · exact h
  rw [normaliseAndFilterUrl_eq baseDomain l₁ u₁ h₁, normaliseAndFilterUrl_eq baseDomain l₂ u₂ h₂,
    hr.2.2.2.1, url.toGoString_congr hr]

namespace url

open encoding

theorem cut_append_of_not_mem (sep : Char) (f : List Char) :
    ∀ p : List Char, sep ∉ p → cut sep (p ++ sep :: f) = (p, f, true)
  | [], _ => by simp [cut]
  | c :: p, h => by
    have hc : c ≠ sep := fun e => h (e ▸ List.mem_cons_self _ _)
    have hp : sep ∉ p := fun e => h (List.mem_cons_of_mem _ e)
    simp [cut, hc, cut_append_of_not_mem sep f p hp]

theorem cut_of_not_mem (sep : Char) :
    ∀ p : List Char, sep ∉ p → cut sep p = (p, [], false)
  | [], _ => by simp [cut]
  | c :: p, h => by
    have hc : c ≠ sep := fun e => h (e ▸ List.mem_cons_self _ _)
    have hp : sep ∉ p := fun e => h (List.mem_cons_of_mem _ e)
    simp [cut, hc, cut_of_not_mem sep p hp]

theorem Parse_of_no_hash (p : String) (hp : '#' ∉ p.data) : Parse p = parse p.data := by
  unfold Parse
  rw [cut_of_not_mem '#' p.data hp]
  cases parse p.data <;> simp

theorem Parse_with_fragment (p f : String) (hp : '#' ∉ p.data) :
    Parse (p ++ "#" ++ f)
      = match parse p.data with
        | .error e => .error e
        | .ok u => if f.data = [] then .ok u else setFragment u f.data := by
  have hd : (p ++ "#" ++ f).data = p.data ++ '#' :: f.data := by
    simp [String.data_append]
  unfold Parse
  rw [hd, cut_append_of_not_mem '#' f.data p.data hp]

theorem unescape_cons_of_ne (c : Char) (s : List Char) (hc : c ≠ '%') :
    unescape encodeFragment (c :: s)
      = match unescape encodeFragment s with
        | .error e => .error e
        | .ok t => .ok (c :: t) := by
  conv_lhs => unfold unescape
  simp only [hc, if_false]
  cases unescape encodeFragment s <;> simp

theorem unescape_percent (a b : Char) (s : List Char) (ha : ishex a = true)
    (hb : ishex b = true) :
    unescape encodeFragment ('%' :: a :: b :: s)
      = match unescape encodeFragment s with
        | .error e => .error e
        | .ok t => .ok (Char.ofNat (unhex a * 16 + unhex b) :: t) := by
  conv_lhs => unfold unescape
  simp only [ha, hb, if_true]
  cases unescape encodeFragment s <;> simp

theorem unescape_fragment_ok : ∀ f : List Char, escapesWellFormed f = true →
    ∃ frag, unescape encodeFragment f = .ok frag
  | [], _ => ⟨[], by simp [unescape]⟩
  | [c], h => by
    by_cases hc : c = '%'
    · simp [escapesWellFormed, hc] at h
    · exact ⟨[c], by simp [unescape, hc]⟩
  | [c, a], h => by
    by_cases hc : c = '%'
    · simp [escapesWellFormed, hc] at h
    · have h' : escapesWellFormed [a] = true := by simpa [escapesWellFormed, hc] using h
      obtain ⟨t, ht⟩ := unescape_fragment_ok [a] h'
      exact ⟨c :: t, by rw [unescape_cons_of_ne c _ hc, ht]⟩
  | c :: a :: b :: rest, h => by
    by_cases hc : c = '%'
    · subst hc
      simp only [escapesWellFormed, if_true, Bool.and_eq_true] at h
      obtain ⟨t, ht⟩ := unescape_fragment_ok rest h.2
      exact ⟨Char.ofNat (unhex a * 16 + unhex b) :: t, by
        rw [unescape_percent a b rest h.1.1 h.1.2, ht]⟩
    · have h' : escapesWellFormed (a :: b :: rest) = true := by
        rw [escapesWellFormed] at h
        simpa [hc] using h
      obtain ⟨t, ht⟩ := unescape_fragment_ok (a :: b :: rest) h'
      exact ⟨c :: t, by rw [unescape_cons_of_ne c _ hc, ht]⟩

theorem Parse_fragment_same (p f : String) (hp : '#' ∉ p.data)
    (hf : escapesWellFormed f.data = true) :
    (∃ e, Parse (p ++ "#" ++ f) = .error e ∧ Parse p = .error e)
      ∨ ∃ u v, Parse (p ++ "#" ++ f) = .ok u ∧ Parse p = .ok v ∧ sameButFragment u v := by
  rw [Parse_with_fragment p f hp, Parse_of_no_hash p hp]
  cases parse p.data with
  | error e => exact Or.inl ⟨e, rfl, rfl⟩
  | ok v =>
    right
    by_cases hfe : f.data = []
    · exact ⟨v, v, by simp [hfe], rfl, sameButFragment_refl v⟩
    · obtain ⟨frag, hfrag⟩ := unescape_fragment_ok f.data hf
      have hs : setFragment v f.data
          = .ok { v with
              Fragment := String.mk frag
              RawFragment := if f.data = escape frag encodeFragment then "" else String.mk f.data } := by
        simp [setFragment, hfrag]
      exact ⟨_, v, by simp only [hfe, if_false]; exact hs, rfl,
        sameButFragment_symm (setFragment_same hs)⟩

end url

theorem normaliseAndFilterUrl_fragment (baseDomain : URL) (p f : String) (hp : '#' ∉ p.data)
    (hf : escapesWellFormed f.data = true) :
    normaliseAndFilterUrl baseDomain (p ++ "#" ++ f) = normaliseAndFilterUrl baseDomain p := by
  rcases url.Parse_fragment_same p f hp hf with ⟨e, h1, h2⟩ | ⟨u, v, h1, h2, h⟩
  · simp [normaliseAndFilterUrl, h1, h2]
  · exact normaliseAndFilterUrl_congr baseDomain _ _ u v h1 h2 h

namespace url

open encoding

theorem upperhex_ne_hash (n : Nat) : upperhex n ≠ '#' := by
  unfold upperhex
  have h : n % 16 < 16 := Nat.mod_lt _ (by decide)
  generalize n % 16 = k at h
  interval_cases k <;> decide

theorem shouldEscape_hash (mode : encoding) : shouldEscape '#' mode = true := by
  cases mode <;> decide

theorem escape_no_hash (s : List Char) (mode : encoding) : '#' ∉ escape s mode := by
  unfold escape
  intro h
  obtain ⟨c, _, hc⟩ := List.mem_flatMap.mp h
  split_ifs at hc with h1 h2
  · simp at hc
  · simp only [List.mem_cons, List.mem_singleton, List.not_mem_nil, or_false] at hc
    rcases hc with hc | hc | hc
    · exact absurd hc (by decide)
    · exact upperhex_ne_hash _ hc.symm
    · exact upperhex_ne_hash _ hc.symm
  · simp only [List.mem_singleton] at hc
    subst hc
    exact h1 (shouldEscape_hash mode)

theorem validEncoded_no_hash (s : List Char) (mode : encoding)
    (h : validEncoded s mode = true) : '#' ∉ s := by
  intro hm
  unfold validEncoded at h
  have := List.all_eq_true.mp h '#' hm
  rw [shouldEscape_hash mode] at this
  exact absurd this (by decide)

theorem EscapedPath_no_hash (u : URL) : '#' ∉ EscapedPath u := by
  unfold EscapedPath
  split_ifs with h1 h2
  · exact validEncoded_no_hash _ _ h1.2.1
  · decide
  · exact escape_no_hash _ _

theorem userinfoString_no_hash (ui : Userinfo) : '#' ∉ userinfoString ui := by
  unfold userinfoString
  intro h
  rcases List.mem_append.mp h with h | h
  · exact escape_no_hash _ _ h
  · split_ifs at h
    · rcases List.mem_cons.mp h with h | h
      · exact absurd h (by decide)
      · exact escape_no_hash _ _ h
    · simp at h

theorem not_mem_ite (c : Prop) [Decidable c] {a b : List Char} (ha : '#' ∉ a)
    (hb : '#' ∉ b) : '#' ∉ (if c then a else b) := by
  split_ifs
  · exact ha
  · exact hb

theorem not_mem_append {a b : List Char} (ha : '#' ∉ a) (hb : '#' ∉ b) : '#' ∉ a ++ b :=
  fun h => (List.mem_append.mp h).elim ha hb

theorem toGoString_no_hash (u : URL) (h : noHash u) (hf : u.Fragment = "") :
    '#' ∉ (toGoString u).data := by
  obtain ⟨h1, h2, h3⟩ := h
  have hp := EscapedPath_no_hash u
  have hh := escape_no_hash u.Host.data encodeHost
  have hnil : '#' ∉ ([] : List Char) := List.not_mem_nil _
  have hcolon : '#' ∉ [':'] := by decide
  have hslash : '#' ∉ ['/'] := by decide
  have hslash2 : '#' ∉ ['/', '/'] := by decide
  have hdot : '#' ∉ ['.', '/'] := by decide
  have hat : '#' ∉ ['@'] := by decide
  have huser : '#' ∉ (match u.User with
      | some ui => userinfoString ui ++ ['@']
      | none => []) := by
    cases u.User with
    | none => exact hnil
    | some ui => exact not_mem_append (userinfoString_no_hash ui) hat
  have hq : '#' ∉ '?' :: u.RawQuery.data := by
    intro hm
    rcases List.mem_cons.mp hm with hm | hm
    · exact absurd hm (by decide)
    · exact h3 hm
  unfold toGoString
  simp only [hf, ne_eq, not_true_eq_false, if_false]
  refine not_mem_ite _ (not_mem_append ?_ hq) ?_ <;>
  · refine not_mem_ite _ (not_mem_append (not_mem_ite _ (not_mem_append h1 hcolon) hnil) h2) ?_
    refine not_mem_append (not_mem_append (not_mem_append (not_mem_append
      (not_mem_ite _ (not_mem_append h1 hcolon) hnil) ?_) (not_mem_ite _ hslash hnil))
      (not_mem_ite _ hdot hnil)) hp
    refine not_mem_ite _ (not_mem_ite _ hnil (not_mem_append (not_mem_append
      (not_mem_ite _ hslash2 hnil) huser) (not_mem_ite _ hh hnil))) hnil

theorem setPath_noHash {u v : URL} {p : List Char} (h : setPath u p = .ok v)
    (hu : noHash u) : noHash v := by
  unfold setPath at h
  cases hp : unescape encodePath p with
  | error e => simp [hp] at h
  | ok path =>
    simp only [hp, Except.ok.injEq] at h
    subst h
    exact hu

theorem setPathIgnoringError_noHash (u : URL) (p : List Char) (hu : noHash u) :
    noHash (setPathIgnoringError u p) := by
  unfold setPathIgnoringError
  cases h : setPath u p with
  | error e => exact hu
  | ok v => exact setPath_noHash h hu

theorem ResolveReference_noHash (b ref : URL) (hb : noHash b) (hr : noHash ref) :
    noHash (ResolveReference b ref) := by
  obtain ⟨b1, b2, b3⟩ := hb
  obtain ⟨r1, r2, r3⟩ := hr
  unfold ResolveReference
  dsimp only
  split_ifs <;>
    first
    | (apply setPathIgnoringError_noHash
       refine ⟨?_, ?_, ?_⟩ <;> first | exact b1 | exact b2 | exact b3 | exact r1 | exact r2 | exact r3)
    | (refine ⟨?_, ?_, ?_⟩ <;> first | exact b1 | exact b2 | exact b3 | exact r1 | exact r2 | exact r3)

theorem toLower_ne_hash (c : Char) (hc : c ≠ '#') : c.toLower ≠ '#' := by
  unfold Char.toLower
  dsimp only
  split_ifs with h
  · obtain ⟨h1, h2⟩ := h
    generalize c.toNat = n at h1 h2
    have : n = 65 ∨ n = 66 ∨ n = 67 ∨ n = 68 ∨ n = 69 ∨ n = 70 ∨ n = 71 ∨ n = 72 ∨ n = 73
        ∨ n = 74 ∨ n = 75 ∨ n = 76 ∨ n = 77 ∨ n = 78 ∨ n = 79 ∨ n = 80 ∨ n = 81 ∨ n = 82
        ∨ n = 83 ∨ n = 84 ∨ n = 85 ∨ n = 86 ∨ n = 87 ∨ n = 88 ∨ n = 89 ∨ n = 90 := by omega
    rcases this with h | h | h | h | h | h | h | h | h | h | h | h | h | h | h | h | h | h | h
      | h | h | h | h | h | h | h <;> subst h <;> decide
  · exact hc

theorem cut_fst_subset (sep : Char) : ∀ (s : List Char) (c : Char), c ∈ (cut sep s).1 → c ∈ s
  | [], c, h => by simp [cut] at h
  | x :: s, c, h => by
    unfold cut at h
    split_ifs at h
    · simp at h
    · rcases List.mem_cons.mp h with h | h
      · exact h ▸ List.mem_cons_self _ _
      · exact List.mem_cons_of_mem _ (cut_fst_subset sep s c h)

theorem cut_snd_subset (sep : Char) : ∀ (s : List Char) (c : Char), c ∈ (cut sep s).2.1 → c ∈ s
  | [], c, h => by simp [cut] at h
  | x :: s, c, h => by
    unfold cut at h
    split_ifs at h
    · exact List.mem_cons_of_mem _ h
    · exact List.mem_cons_of_mem _ (cut_snd_subset sep s c h)

theorem getScheme_go_subset (rawURL : List Char) : ∀ (l : List Char) (i : Nat)
    (a b : List Char), (∀ c ∈ l, c ∈ rawURL) → getScheme.go rawURL i l = .ok (a, b) →
    (∀ c ∈ a, c ∈ rawURL) ∧ (∀ c ∈ b, c ∈ rawURL)
  | [], i, a, b, _, h => by
    simp only [getScheme.go, Except.ok.injEq, Prod.mk.injEq] at h
    obtain ⟨rfl, rfl⟩ := h
    exact ⟨fun c hc => absurd hc (List.not_mem_nil c), fun c hc => hc⟩
  | x :: l, i, a, b, hl, h => by
    have hl' : ∀ c ∈ l, c ∈ rawURL := fun c hc => hl c (List.mem_cons_of_mem _ hc)
    have hnil : (∀ c ∈ ([] : List Char), c ∈ rawURL) ∧ (∀ c ∈ rawURL, c ∈ rawURL) :=
      ⟨fun c hc => absurd hc (List.not_mem_nil c), fun c hc => hc⟩
    unfold getScheme.go at h
    split_ifs at h
    · exact getScheme_go_subset rawURL l _ a b hl' h
    · simp only [Except.ok.injEq, Prod.mk.injEq] at h
      obtain ⟨rfl, rfl⟩ := h
      exact hnil
    · exact getScheme_go_subset rawURL l _ a b hl' h
    · simp only [Except.ok.injEq, Prod.mk.injEq] at h
      obtain ⟨rfl, rfl⟩ := h
      exact ⟨fun c hc => List.mem_of_mem_take hc, hl'⟩
    · simp only [Except.ok.injEq, Prod.mk.injEq] at h
      obtain ⟨rfl, rfl⟩ := h
      exact hnil

theorem getScheme_subset (rawURL a b : List Char) (h : getScheme rawURL = .ok (a, b)) :
    (∀ c ∈ a, c ∈ rawURL) ∧ (∀ c ∈ b, c ∈ rawURL) :=
  getScheme_go_subset rawURL rawURL 0 a b (fun _ hc => hc) h

theorem parse_noHash (rawURL : List Char) (u : URL) (hraw : '#' ∉ rawURL)
    (h : parse rawURL = .ok u) : noHash u := by
  have hempty : '#' ∉ ("" : String).data := by decide
  unfold parse at h
  split_ifs at h with h1 h2
  · simp only [Except.ok.injEq] at h
    subst h
    exact ⟨hempty, hempty, hempty⟩
  · split at h
    · exact absurd h (by simp)
    · rename_i scheme rest0 hgs
      obtain ⟨hs, hr⟩ := getScheme_subset rawURL scheme rest0 hgs
      have hscheme : '#' ∉ (String.mk (scheme.map Char.toLower)).data := by
        intro hm
        obtain ⟨c, hc, hcl⟩ := List.mem_map.mp hm
        exact toLower_ne_hash c (fun e => hraw (e ▸ hs c hc)) hcl
      have hrest0 : '#' ∉ rest0 := fun hm => hraw (hr _ hm)
      have hquery : '#' ∉ (String.mk (cut '?' rest0).2.1).data :=
        fun hm => hrest0 (cut_snd_subset _ _ _ hm)
      have hdrop : '#' ∉ (String.mk rest0.dropLast).data :=
        fun hm => hrest0 (List.mem_of_mem_dropLast hm)
      have hcut : '#' ∉ (String.mk (cut '?' rest0).1).data :=
        fun hm => hrest0 (cut_fst_subset _ _ _ hm)
      dsimp only at h
      split_ifs at h
      all_goals
        first
        | exact Except.noConfusion h
        | (simp only [Except.ok.injEq] at h
           subst h
           first
           | exact ⟨hscheme, hdrop, hempty⟩
           | exact ⟨hscheme, hcut, hquery⟩)
        | exact setPath_noHash h ⟨hscheme, hempty, hempty⟩
        | exact setPath_noHash h ⟨hscheme, hempty, hquery⟩
        | (split at h
           · exact Except.noConfusion h
           · first
             | exact setPath_noHash h ⟨hscheme, hempty, hempty⟩
             | exact setPath_noHash h ⟨hscheme, hempty, hquery⟩)

theorem setFragment_noHash {u v : URL} {f : List Char} (h : setFragment u f = .ok v)
    (hu : noHash u) : noHash v := by
  have hs := setFragment_same h
  exact ⟨hs.1 ▸ hu.1, hs.2.1 ▸ hu.2.1, hs.2.2.2.2.2.2.2.2 ▸ hu.2.2⟩

theorem Parse_noHash (rawURL : String) (u : URL) (h : Parse rawURL = .ok u) : noHash u := by
  have hcut : '#' ∉ (cut '#' rawURL.data).1 := by
    generalize rawURL.data = l
    induction l with
    | nil => simp [cut]
    | cons c l ih =>
      unfold cut
      split_ifs with hc
      · simp
      · intro hm
        rcases List.mem_cons.mp hm with hm | hm
        · exact hc hm.symm
        · exact ih hm
  unfold Parse at h
  cases hp : parse (cut '#' rawURL.data).1 with
  | error e => simp [hp] at h
  | ok v =>
    have hv := parse_noHash _ v hcut hp
    simp only [hp] at h
    split_ifs at h
    · simp only [Except.ok.injEq] at h
      exact h ▸ hv
    · exact setFragment_noHash h hv

end url

theorem normaliseAndFilterUrl_no_hash (seedURL : String) (baseDomain : URL)
    (hbase : url.Parse seedURL = .ok baseDomain) (link s : String)
    (h : normaliseAndFilterUrl baseDomain link = .ok s) : '#' ∉ s.data := by
  have hb := url.Parse_noHash seedURL baseDomain hbase
  cases hp : url.Parse link with
  | error e => simp [normaliseAndFilterUrl, hp] at h
  | ok parsedURL =>
    have hl := url.Parse_noHash link parsedURL hp
    have hr : noHash (resolveLink baseDomain parsedURL) := by
      unfold resolveLink
      split_ifs
      · exact url.ResolveReference_noHash _ _ hb hl
      · exact hl
    rw [normaliseAndFilterUrl_eq baseDomain link parsedURL hp] at h
    split_ifs at h
    injection h with h
    rw [← h]
    exact url.toGoString_no_hash _ hr rfl

namespace url

open encoding

theorem unescape_fragment_error : ∀ f : List Char, escapesWellFormed f = false →
    ∃ e, unescape encodeFragment f = .error e
  | [], h => by simp [escapesWellFormed] at h
  | [c], h => by
    by_cases hc : c = '%'
    · exact ⟨"invalid URL escape", by simp [unescape, hc]⟩
    · simp [escapesWellFormed, hc] at h
  | [c, a], h => by
    by_cases hc : c = '%'
    · exact ⟨"invalid URL escape", by simp [unescape, hc]⟩
    · have h' : escapesWellFormed [a] = false := by simpa [escapesWellFormed, hc] using h
      obtain ⟨e, he⟩ := unescape_fragment_error [a] h'
      exact ⟨e, by rw [unescape_cons_of_ne c _ hc, he]⟩
  | c :: a :: b :: rest, h => by
    by_cases hc : c = '%'
    · subst hc
      by_cases hab : ishex a = true ∧ ishex b = true
      · have h' : escapesWellFormed rest = false := by
          simpa [escapesWellFormed, hab.1, hab.2] using h
        obtain ⟨e, he⟩ := unescape_fragment_error rest h'
        exact ⟨e, by rw [unescape_percent a b rest hab.1 hab.2, he]⟩
      · refine ⟨"invalid URL escape", ?_⟩
        unfold unescape
        have : (!ishex a || !ishex b) = true := by
          rcases Bool.eq_false_or_eq_true (ishex a) with ha | ha
          · rcases Bool.eq_false_or_eq_true (ishex b) with hb | hb
            · exact absurd ⟨ha, hb⟩ hab
            · simp [hb]
          · simp [ha]
        simp only [this, if_true]
    · have h' : escapesWellFormed (a :: b :: rest) = false := by
        rw [escapesWellFormed] at h
        simpa [hc] using h
      obtain ⟨e, he⟩ := unescape_fragment_error (a :: b :: rest) h'
      exact ⟨e, by rw [unescape_cons_of_ne c _ hc, he]⟩

end url

theorem normaliseAndFilterUrl_bad_fragment (baseDomain : URL) (p f : String)
    (hp : '#' ∉ p.data) (hf : escapesWellFormed f.data = false) :
    ∃ e, normaliseAndFilterUrl baseDomain (p ++ "#" ++ f) = .error e := by
  have hne : f.data ≠ [] := by
    intro h
    rw [h] at hf
    simp [escapesWellFormed] at hf
  obtain ⟨e, he⟩ := url.unescape_fragment_error f.data hf
  unfold normaliseAndFilterUrl
  rw [url.Parse_with_fragment p f hp]
  cases url.parse p.data with
  | error e' => exact ⟨e', rfl⟩
  | ok u => exact ⟨e, by simp [hne, url.setFragment, he]⟩

/-- C10, refuted: the links `https://example.test/b#%zz` and `https://example.test/b`
differ only in the fragment; `url.Parse` rejects the first for the malformed
escape `%zz`, so `normaliseAndFilterUrl` rejects the first and accepts the second. -/
theorem fragment_with_malformed_escape_rejected :
    "https://example.test/b#%zz" = "https://example.test/b" ++ "#" ++ "%zz"
      ∧ normaliseAndFilterUrl exampleBase "https://example.test/b#%zz"
        = .error "invalid URL escape"
      ∧ normaliseAndFilterUrl exampleBase "https://example.test/b"
        = .ok "https://example.test/b" :=
  ⟨by decide, rfl, rfl⟩

/-- C10, amended. For every seed that parses, with base URL `baseDomain`, and every
text `p` without `#`: two links `p#f₁` and `p#f₂` in whose fragments every `%` is
followed by two hexadecimal digits get the same result from
`normaliseAndFilterUrl` (both rejected with the same error, or both the same
string), and that is the result for `p` itself; a link `p#f` whose fragment has a
malformed escape is rejected; and no string that `normaliseAndFilterUrl` returns
holds a `#`. -/
theorem fragment_stripped (seedURL : String) (baseDomain : URL)
    (hbase : url.Parse seedURL = .ok baseDomain) (p f₁ f₂ : String) (hp : '#' ∉ p.data)
    (h₁ : escapesWellFormed f₁.data = true) (h₂ : escapesWellFormed f₂.data = true) :
    normaliseAndFilterUrl baseDomain (p ++ "#" ++ f₁)
        = normaliseAndFilterUrl baseDomain (p ++ "#" ++ f₂)
      ∧ normaliseAndFilterUrl baseDomain (p ++ "#" ++ f₁) = normaliseAndFilterUrl baseDomain p
      ∧ (∀ f : String, escapesWellFormed f.data = false →
          ∃ e, normaliseAndFilterUrl baseDomain (p ++ "#" ++ f) = .error e)
      ∧ (∀ link s : String, normaliseAndFilterUrl baseDomain link = .ok s → '#' ∉ s.data) :=
  ⟨(normaliseAndFilterUrl_fragment baseDomain p f₁ hp h₁).trans
      (normaliseAndFilterUrl_fragment baseDomain p f₂ hp h₂).symm,
    normaliseAndFilterUrl_fragment baseDomain p f₁ hp h₁,
    fun f hf => normaliseAndFilterUrl_bad_fragment baseDomain p f hp hf,
    fun link s h => normaliseAndFilterUrl_no_hash seedURL baseDomain hbase link s h⟩

/-- C10 amended, with the seed `https://example.test/`: the links
`https://example.test/b#frag` and `https://example.test/b` both normalise to
`https://example.test/b`. -/
theorem fragment_stripped_witness :
    url.Parse "https://example.test/" = .ok exampleBase
      ∧ '#' ∉ "https://example.test/b".data
      ∧ escapesWellFormed "frag".data = true
      ∧ escapesWellFormed "a%20b".data = true
      ∧ normaliseAndFilterUrl exampleBase "https://example.test/b#frag"
        = .ok "https://example.test/b"
      ∧ normaliseAndFilterUrl exampleBase ("https://example.test/b" ++ "#" ++ "frag")
        = normaliseAndFilterUrl exampleBase ("https://example.test/b" ++ "#" ++ "a%20b")
      ∧ normaliseAndFilterUrl exampleBase ("https://example.test/b" ++ "#" ++ "frag")
        = normaliseAndFilterUrl exampleBase "https://example.test/b"
      ∧ (∀ f : String, escapesWellFormed f.data = false →
          ∃ e, normaliseAndFilterUrl exampleBase ("https://example.test/b" ++ "#" ++ f)
            = .error e)
      ∧ (∀ link s : String, normaliseAndFilterUrl exampleBase link = .ok s → '#' ∉ s.data) :=
  ⟨rfl, by decide, by decide, by decide, rfl,
    fragment_stripped "https://example.test/" exampleBase rfl "https://example.test/b" "frag"
      "a%20b" (by decide) (by decide) (by decide)⟩

end Crawler
